import Mathlib

/-!
Verification model of `savesync.py` from kanazuchijin/emulator-save-sync.

The filesystem is shallowly embedded as a finite association list of file
paths (lists of name components) to file records, together with a list of
existing directories.  Python exceptions (unreadable files) are embedded as
`Except`, side effects as explicit state passing, and the SHA-256 digest is
idealised as the byte content itself (the digest of the spec's Content
Fingerprinter is equal for two files iff their contents are equal).
Modification times are embedded as integers (the script compares them only
with subtraction and ordering against the integral skew allowance).
-/

namespace SaveSync

/-- A filesystem path, as a list of name components. -/
abbrev Path := List String

/-- A regular file: byte content, modification time, and whether reading it
succeeds (Python raises `OSError` on an unreadable/vanished file). -/
structure File where
  content : List Nat
  mtime : Int
  readable : Bool
deriving DecidableEq, Repr

/-- Filesystem state: regular files (association list, first match wins) and
the set of existing directories. -/
structure FS where
  files : List (Path × File)
  dirs : List Path
deriving DecidableEq, Repr

/-- Look up the file stored at `p`. -/
def FS.findFile (fs : FS) (p : Path) : Option File :=
  (fs.files.find? (fun e => e.1 = p)).map (fun e => e.2)

/-- `Path.is_file()` in the model. -/
def FS.isFile (fs : FS) (p : Path) : Bool :=
  (fs.findFile p).isSome

/-- `Path.is_dir()` in the model. -/
def FS.isDir (fs : FS) (p : Path) : Bool :=
  fs.dirs.contains p

/-- `Path.exists()` in the model: a regular file or a directory. -/
def FS.pathExists (fs : FS) (p : Path) : Bool :=
  fs.isFile p || fs.isDir p

/-- Store `f` at path `p`, overwriting an existing entry in place and
appending a fresh entry otherwise. -/
def FS.writeFile (fs : FS) (p : Path) (f : File) : FS :=
  if fs.isFile p then
    { fs with files := fs.files.map (fun e => if e.1 = p then (p, f) else e) }
  else
    { fs with files := fs.files ++ [(p, f)] }

/-- All prefixes of a path, the empty path and the path itself included. -/
def pathPrefixes (p : Path) : List Path :=
  (List.range (p.length + 1)).map (fun k => p.take k)

/-- `p.mkdir(parents=True, exist_ok=True)`: create `p` and every missing
ancestor directory. -/
def FS.mkdirParents (fs : FS) (p : Path) : FS :=
  { fs with
    dirs := (pathPrefixes p).foldl
      (fun ds q => if ds.contains q then ds else ds ++ [q]) fs.dirs }

/-- Render a path for log messages. -/
def pathStr (p : Path) : String :=
  String.intercalate "/" p

/-- The primitive filesystem mutations the script performs, recorded in
program order for the temporal claims. -/
inductive FsOp where
  | mkdirParents (p : Path)
  | copyFile (src dst : Path)
deriving DecidableEq, Repr

/-- `copy_file_nfs_safe` (savesync.py:149-155): create the destination's
parent directories, then copy content only (`shutil.copyfile`); the copy
reads the source, so an unreadable source raises. The fresh destination file
carries the copy-time `now` as its mtime (copyfile does not preserve
metadata) and is readable. -/
def copy_file_nfs_safe (now : Int) (fs : FS) (src dst : Path) :
    Except Unit FS :=
  match fs.findFile src with
  | none => .error ()
  | some f =>
    if f.readable then
      .ok (((fs.mkdirParents dst.dropLast)).writeFile dst
        { content := f.content, mtime := now, readable := true })
    else
      .error ()

/-- `sha256_of_file` (savesync.py:157-163), with the digest idealised as the
content itself; raising on an unreadable file becomes `Except.error`. -/
def sha256_of_file (fs : FS) (p : Path) : Except Unit (List Nat) :=
  match fs.findFile p with
  | none => .error ()
  | some f => if f.readable then .ok f.content else .error ()

/-- `SKEW_ALLOWANCE_SECONDS = 300` (savesync.py:71). -/
def SKEW_ALLOWANCE_SECONDS : Int := 300

/-- `platform.node() or "unknownhost"` (savesync.py:183). -/
def resolveHost (node : String) : String :=
  if node = "" then "unknownhost" else node

/-- The spec's Timestamp Arbiter verdict. -/
inductive TsVerdict where
  | srcNewer
  | dstNewer
  | ambiguous
deriving DecidableEq, Repr

/-- The Timestamp Arbiter as inlined in savesync.py:206-220:
`abs(dt) > tol` with `dt > 0` picking the source, otherwise the
destination; within the window (boundary included) the order is ambiguous. -/
def timestampArbiter (dt tol : Int) : TsVerdict :=
  if tol < |dt| then
    if 0 < dt then .srcNewer else .dstNewer
  else
    .ambiguous

/-- The spec's ReconciliationDecision, identifying which branch of
`copy_with_smart_conflict` fired. -/
inductive Decision where
  | skip
  | copyAsNew
  | copyBecauseNewer
  | copyAsConflict
deriving DecidableEq, Repr

/-- `dst.with_suffix(dst.suffix + ".conflict-<hostname>-<time>")`
(savesync.py:222-224).  Replacing the final suffix by itself plus the tag
appends the tag to the final name component. -/
def conflictTag (hostname : String) (now : Int) : String :=
  ".conflict-" ++ hostname ++ "-" ++ toString now

/-- The conflict-backup path: a sibling of `dst` whose name is `dst`'s name
with the conflict tag appended. -/
def conflictPath (dst : Path) (hostname : String) (now : Int) : Path :=
  dst.dropLast ++ [dst.getLastD "" ++ conflictTag hostname now]

/-- Outcome of one `copy_with_smart_conflict` call. -/
structure CopyResult where
  fs : FS
  copied : Bool
  decision : Decision
  ops : List FsOp
  log : List String
deriving DecidableEq, Repr

/-- `copy_with_smart_conflict` (savesync.py:165-236).  The `Except` error
carries the state and log at the moment the Python exception propagates.
`ops` records the filesystem mutations of the taken branch in program
order. -/
def copy_with_smart_conflict (node : String) (now tol : Int) (fs : FS)
    (src dst : Path) (dry_run : Bool) :
    Except (FS × List String) CopyResult :=
  if ¬ fs.isFile src then
    .ok { fs := fs, copied := false, decision := .skip, ops := [], log := [] }
  else
    let hostname := resolveHost node
    if ¬ fs.pathExists dst then
      let l := ["  -> " ++ pathStr dst ++ "  (from " ++ pathStr src ++ ") [new file]"]
      if ¬ dry_run then
        let fs1 := fs.mkdirParents dst.dropLast
        match copy_file_nfs_safe now fs1 src dst with
        | .error _ => .error (fs1, l)
        | .ok fs2 =>
          .ok { fs := fs2, copied := true, decision := .copyAsNew,
                ops := [.mkdirParents dst.dropLast, .copyFile src dst], log := l }
      else
        .ok { fs := fs, copied := true, decision := .copyAsNew, ops := [], log := l }
    else
      match sha256_of_file fs src with
      | .error _ => .error (fs, [])
      | .ok src_hash =>
        match sha256_of_file fs dst with
        | .error _ => .error (fs, [])
        | .ok dst_hash =>
          if src_hash = dst_hash then
            .ok { fs := fs, copied := false, decision := .skip, ops := [], log := [] }
          else
            let src_mtime := ((fs.findFile src).map File.mtime).getD 0
            let dst_mtime := ((fs.findFile dst).map File.mtime).getD 0
            let dt := src_mtime - dst_mtime
            match timestampArbiter dt tol with
            | .srcNewer =>
              let l := ["  -> " ++ pathStr dst ++ "  (from " ++ pathStr src ++ ") [src newer]"]
              if ¬ dry_run then
                let fs1 := fs.mkdirParents dst.dropLast
                match copy_file_nfs_safe now fs1 src dst with
                | .error _ => .error (fs1, l)
                | .ok fs2 =>
                  .ok { fs := fs2, copied := true, decision := .copyBecauseNewer,
                        ops := [.mkdirParents dst.dropLast, .copyFile src dst], log := l }
              else
                .ok { fs := fs, copied := true, decision := .copyBecauseNewer, ops := [], log := l }
            | .dstNewer =>
              .ok { fs := fs, copied := false, decision := .skip, ops := [], log := [] }
            | .ambiguous =>
              let cp := conflictPath dst hostname now
              let l := ["  !! Possible conflict on " ++ pathStr dst,
                        "     Keeping backup at " ++ pathStr cp,
                        "     Overwriting with " ++ pathStr src]
              if ¬ dry_run then
                let fs1 := fs.mkdirParents dst.dropLast
                match copy_file_nfs_safe now fs1 dst cp with
                | .error _ => .error (fs1, l)
                | .ok fs2 =>
                  match copy_file_nfs_safe now fs2 src dst with
                  | .error _ => .error (fs2, l)
                  | .ok fs3 =>
                    .ok { fs := fs3, copied := true, decision := .copyAsConflict,
                          ops := [.mkdirParents dst.dropLast, .copyFile dst cp,
                                  .copyFile src dst], log := l }
              else
                .ok { fs := fs, copied := true, decision := .copyAsConflict, ops := [], log := l }

/-- `p` lies strictly below the directory `root`. -/
def strictUnder (root p : Path) : Bool :=
  root.isPrefixOf p && decide (root.length < p.length)

/-- `src_root.rglob("*")` restricted to regular files (savesync.py:259-260):
every file path strictly below `root`, in filesystem (here: list) order, with
no name filtering. -/
def FS.filesUnder (fs : FS) (root : Path) : List Path :=
  (fs.files.map (fun e => e.1)).filter (fun p => strictUnder root p)

/-- One configured save directory (savesync.py:74-77). -/
structure SaveSource where
  name : String
  path : Path
deriving DecidableEq, Repr

/-- Outcome of one sync direction. -/
structure SyncResult where
  fs : FS
  copied : Nat
  ops : List FsOp
  log : List String
deriving DecidableEq, Repr

/-- The per-file loop of `sync_source_to_central` / `sync_central_to_source`
(savesync.py:258-264, 286-292): for each enumerated path that is (still) a
regular file, reconcile it against `dest_root / rel`; an exception aborts
the whole loop. -/
def syncFiles (node : String) (now tol : Int) (dry : Bool)
    (src_root dest_root : Path) :
    List Path → FS → Except (FS × List String) SyncResult
  | [], fs => .ok { fs := fs, copied := 0, ops := [], log := [] }
  | p :: rest, fs =>
    if fs.isFile p then
      match copy_with_smart_conflict node now tol fs p
          (dest_root ++ p.drop src_root.length) dry with
      | .error e => .error e
      | .ok r =>
        match syncFiles node now tol dry src_root dest_root rest r.fs with
        | .error e => .error (e.1, r.log ++ e.2)
        | .ok s =>
          .ok { fs := s.fs, copied := (if r.copied then 1 else 0) + s.copied,
                ops := r.ops ++ s.ops, log := r.log ++ s.log }
    else
      syncFiles node now tol dry src_root dest_root rest fs

/-- Shared body of the two direction functions (savesync.py:241-294): skip
with a warning when the direction's source root is not a directory, else
enumerate it once and run the per-file loop. -/
def syncDirection (node : String) (now tol : Int) (header : String)
    (src_root dest_root : Path) (fs : FS) (dry : Bool) :
    Except (FS × List String) SyncResult :=
  if ¬ fs.isDir src_root then
    .ok { fs := fs, copied := 0, ops := [],
          log := [header, "  !! Skipping: source directory not found."] }
  else
    match syncFiles node now tol dry src_root dest_root (fs.filesUnder src_root) fs with
    | .error e => .error (e.1, header :: e.2)
    | .ok s => .ok { s with log := header :: s.log }

/-- `sync_source_to_central` (savesync.py:241-266): push
`source.path -> central_root / source.name`. -/
def sync_source_to_central (node : String) (now tol : Int)
    (source : SaveSource) (central_root : Path) (fs : FS) (dry : Bool) :
    Except (FS × List String) SyncResult :=
  syncDirection node now tol ("=== Pushing " ++ source.name ++ " -> NAS ===")
    source.path (central_root ++ [source.name]) fs dry

/-- `sync_central_to_source` (savesync.py:269-294): pull
`central_root / source.name -> source.path`. -/
def sync_central_to_source (node : String) (now tol : Int)
    (source : SaveSource) (central_root : Path) (fs : FS) (dry : Bool) :
    Except (FS × List String) SyncResult :=
  syncDirection node now tol ("=== Pulling NAS -> " ++ source.name ++ " ===")
    (central_root ++ [source.name]) source.path fs dry

/-- The per-source loop of `main` (savesync.py:320-324): push then pull for
each source, collecting the per-direction copy counts in order. -/
def runSources (node : String) (now tol : Int) (central : Path) (dry : Bool) :
    List SaveSource → FS → Except (FS × List String) (FS × List Nat × List FsOp × List String)
  | [], fs => .ok (fs, [], [], [])
  | s :: rest, fs =>
    match sync_source_to_central node now tol s central fs dry with
    | .error e => .error e
    | .ok r1 =>
      match sync_central_to_source node now tol s central r1.fs dry with
      | .error e => .error (e.1, r1.log ++ e.2)
      | .ok r2 =>
        match runSources node now tol central dry rest r2.fs with
        | .error e => .error (e.1, r1.log ++ r2.log ++ e.2)
        | .ok (fs', cs, ops, lg) =>
          .ok (fs', r1.copied :: r2.copied :: cs,
               r1.ops ++ r2.ops ++ ops, r1.log ++ r2.log ++ lg)

/-- Outcome of a whole run of `main`. -/
structure RunResult where
  fs : FS
  exitCode : Nat
  counts : List Nat
  ops : List FsOp
  log : List String
deriving DecidableEq, Repr

/-- `main` (savesync.py:297-330), with the platform-dependent configuration
(central root, source list, hostname) and the clock passed as parameters.
The central root is created unconditionally (savesync.py:309) before the
dry-run flag is ever consulted; an empty source list exits with code 1. -/
def main (node : String) (now : Int) (central : Path)
    (sources : List SaveSource) (fs : FS) (dry : Bool) :
    Except (FS × List String) RunResult :=
  let fs1 := fs.mkdirParents central
  if sources.isEmpty then
    .ok { fs := fs1, exitCode := 1, counts := [],
          ops := [.mkdirParents central],
          log := ["No existing save sources found. Edit get_save_sources() paths."] }
  else
    match runSources node now SKEW_ALLOWANCE_SECONDS central dry sources fs1 with
    | .error e => .error e
    | .ok (fs', cs, ops, lg) =>
      .ok { fs := fs', exitCode := 0, counts := cs,
            ops := .mkdirParents central :: ops, log := lg }

/-- The byte content stored at `p`, if a regular file is there. -/
def FS.contentAt (fs : FS) (p : Path) : Option (List Nat) :=
  (fs.findFile p).map File.content

/-- All regular-file paths of the state, in list order. -/
def FS.filePaths (fs : FS) : List Path :=
  fs.files.map (fun e => e.1)

/-- The ReconciliationDecision as a function of destination existence,
content-hash equality, timestamp delta and skew tolerance alone — the four
inputs the spec says determine it. -/
def decisionOf (dstExists hashEq : Bool) (dt tol : Int) : Decision :=
  if ¬ dstExists then .copyAsNew
  else if hashEq then .skip
  else
    match timestampArbiter dt tol with
    | .srcNewer => .copyBecauseNewer
    | .dstNewer => .skip
    | .ambiguous => .copyAsConflict

/-- The destination-side path corresponding to `p` when syncing
`srcRoot` into `dstRoot`. -/
def mirror (srcRoot dstRoot p : Path) : Path :=
  dstRoot ++ p.drop srcRoot.length

/-- Well-formed state: every ancestor directory of a regular file exists. -/
def FS.wfDirs (fs : FS) : Prop :=
  ∀ p ∈ fs.filePaths, ∀ k, k < p.length → p.take k ∈ fs.dirs

/-- Two directory roots with no ancestry relation (neither contains the
other). -/
def indepRoots (a b : Path) : Prop :=
  ¬ a.isPrefixOf b ∧ ¬ b.isPrefixOf a

/-- A sane run configuration: pairwise independent source roots, each
independent of the central root, and pairwise distinct source names. -/
def goodConfig (central : Path) (sources : List SaveSource) : Prop :=
  (∀ s ∈ sources, indepRoots s.path central) ∧
  List.Pairwise (fun s t => s.name ≠ t.name ∧ indepRoots s.path t.path) sources

/-- Every regular file of the state can be read. -/
def FS.allReadable (fs : FS) : Prop :=
  ∀ e ∈ fs.files, e.2.readable = true

/-- No existing file already carries the conflict tag this run would embed
in a backup name (same host and same whole-second timestamp). -/
def noTagCollision (fs : FS) (hostname : String) (now : Int) : Prop :=
  ∀ p ∈ fs.filePaths, ¬ (conflictTag hostname now).data <:+ (p.getLastD "").data

/-- The timestamp delta the decision compares: source mtime minus destination
mtime (savesync.py:201-203). -/
def dtOf (fs : FS) (src dst : Path) : Int :=
  ((fs.findFile src).map File.mtime).getD 0 - ((fs.findFile dst).map File.mtime).getD 0

/-- Outcome of one direction for one file: the file and its mirror agree on
content, or the mirror was left untouched as the clear timestamp winner
(with both files as they were in the initial state `fs0`). -/
def MirrorDone (fs0 fs : FS) (tol : Int) (src_root dest_root p : Path) : Prop :=
  ∃ f g, fs.findFile p = some f ∧
    fs.findFile (mirror src_root dest_root p) = some g ∧
    f.readable = true ∧ g.readable = true ∧
    (f.content = g.content ∨
      (timestampArbiter (f.mtime - g.mtime) tol = .dstNewer ∧
       fs0.findFile p = some f ∧ fs0.findFile (mirror src_root dest_root p) = some g))

/-- Outcome of one direction for one file, final state only: the file and
its mirror agree on content, or the mirror is the clear timestamp winner. -/
def MirrorAgree (fs : FS) (tol : Int) (src_root dest_root p : Path) : Prop :=
  ∃ f g, fs.findFile p = some f ∧
    fs.findFile (mirror src_root dest_root p) = some g ∧
    f.readable = true ∧ g.readable = true ∧
    (f.content = g.content ∨ timestampArbiter (f.mtime - g.mtime) tol = .dstNewer)

/-- A reconciliation pair that cannot hit the conflict branch: the source is
a readable file, and the destination is either no regular file at all or a
readable file that is identical or clearly ordered in time. -/
def GoodPair (fs : FS) (tol : Int) (src dst : Path) : Prop :=
  ∃ f, fs.findFile src = some f ∧ f.readable = true ∧
    (fs.isFile dst = false ∨
     ∃ g, fs.findFile dst = some g ∧ g.readable = true ∧
       (f.content = g.content ∨ timestampArbiter (f.mtime - g.mtime) tol ≠ .ambiguous))

/-- The two trees rooted at `a` and `b` carry the same content at every
relative path. -/
def TreesEq (fs : FS) (a b : Path) : Prop :=
  ∀ rel : Path, rel ≠ [] → fs.contentAt (a ++ rel) = fs.contentAt (b ++ rel)

/-- Replay one recorded filesystem mutation. -/
def applyOp (now : Int) (fs : FS) : FsOp → Except Unit FS
  | .mkdirParents p => .ok (fs.mkdirParents p)
  | .copyFile s d => copy_file_nfs_safe now fs s d

/-- Replay a list of recorded mutations in order. -/
def applyOps (now : Int) : FS → List FsOp → Except Unit FS
  | fs, [] => .ok fs
  | fs, op :: rest =>
    match applyOp now fs op with
    | .error e => .error e
    | .ok fs1 => applyOps now fs1 rest

/-! ### Basic lemmas about the filesystem model -/

theorem list_find_update (l : List (Path × File)) (p q : Path) (f : File) (hne : q ≠ p) :
    (l.map (fun e => if e.1 = p then (p, f) else e)).find? (fun e => decide (e.1 = q)) =
      l.find? (fun e => decide (e.1 = q)) := by
  induction l with
  | nil => rfl
  | cons a t ih =>
    by_cases hap : a.1 = p
    · simp only [List.map_cons, if_pos hap, List.find?_cons]
      have h1 : (decide (p = q)) = false := by
        simp only [decide_eq_false_iff_not]
        exact fun h => hne (h ▸ rfl)
      have h2 : (decide (a.1 = q)) = false := by
        simp only [decide_eq_false_iff_not]
        exact fun h => hne (hap ▸ h ▸ rfl)
      simp only [h1, h2, ih]
    · simp only [List.map_cons, if_neg hap, List.find?_cons]
      cases hq : decide (a.1 = q) with
      | true => rfl
      | false => exact ih

theorem list_find_update_self (l : List (Path × File)) (p : Path) (f : File) :
    (l.map (fun e => if e.1 = p then (p, f) else e)).find? (fun e => decide (e.1 = p)) =
      (l.find? (fun e => decide (e.1 = p))).map (fun _ => (p, f)) := by
  induction l with
  | nil => rfl
  | cons a t ih =>
    by_cases hap : a.1 = p
    · simp [List.find?_cons, hap]
    · simp [List.find?_cons, hap, ih]

/-- `writeFile` seen through `findFile`: the written path holds the new file,
every other path is untouched. -/
theorem findFile_writeFile (fs : FS) (p q : Path) (f : File) :
    (fs.writeFile p f).findFile q = if q = p then some f else fs.findFile q := by
  by_cases hq : q = p
  · subst hq
    rw [if_pos rfl]
    unfold FS.writeFile
    by_cases hp : fs.isFile q
    · rw [if_pos hp]
      unfold FS.isFile FS.findFile at *
      rw [list_find_update_self]
      cases hfind : fs.files.find? (fun e => decide (e.1 = q)) with
      | none => rw [hfind] at hp; simp at hp
      | some e => simp
    · rw [if_neg hp]
      unfold FS.isFile FS.findFile at *
      rw [List.find?_append]
      cases hfind : fs.files.find? (fun e => decide (e.1 = q)) with
      | none => simp [hfind, List.find?]
      | some e => rw [hfind] at hp; simp at hp
  · rw [if_neg hq]
    unfold FS.writeFile
    by_cases hp : fs.isFile p
    · rw [if_pos hp]
      unfold FS.findFile
      rw [list_find_update fs.files p q f hq]
    · rw [if_neg hp]
      unfold FS.findFile
      rw [List.find?_append]
      cases hfind : fs.files.find? (fun e => decide (e.1 = q)) with
      | none =>
        have : (decide (p = q)) = false := decide_eq_false (fun h => hq h.symm)
        simp [hfind, this]
      | some e => simp [hfind]

@[simp]
theorem files_mkdirParents (fs : FS) (p : Path) :
    (fs.mkdirParents p).files = fs.files := rfl

@[simp]
theorem findFile_mkdirParents (fs : FS) (p q : Path) :
    (fs.mkdirParents p).findFile q = fs.findFile q := rfl

@[simp]
theorem isFile_mkdirParents (fs : FS) (p q : Path) :
    (fs.mkdirParents p).isFile q = fs.isFile q := rfl

theorem mem_foldl_addDir (l : List Path) (ds : List Path) (x : Path)
    (hx : x ∈ ds ∨ x ∈ l) :
    x ∈ l.foldl (fun ds q => if ds.contains q then ds else ds ++ [q]) ds := by
  induction l generalizing ds with
  | nil => simpa using hx.resolve_right (by simp)
  | cons a t ih =>
    simp only [List.foldl_cons]
    by_cases ha : ds.contains a
    · rw [if_pos ha]
      apply ih
      rcases hx with hx | hx
      · exact Or.inl hx
      · rcases List.mem_cons.mp hx with hxa | hxt
        · exact Or.inl (by subst hxa; simpa using ha)
        · exact Or.inr hxt
    · rw [if_neg ha]
      apply ih
      rcases hx with hx | hx
      · exact Or.inl (by simp [hx])
      · rcases List.mem_cons.mp hx with hxa | hxt
        · exact Or.inl (by simp [hxa])
        · exact Or.inr hxt

theorem dirs_mono_mkdirParents (fs : FS) (p q : Path) (h : q ∈ fs.dirs) :
    q ∈ (fs.mkdirParents p).dirs :=
  mem_foldl_addDir _ _ _ (Or.inl h)

theorem take_mem_dirs_mkdirParents (fs : FS) (p : Path) (k : Nat)
    (hk : k ≤ p.length) : p.take k ∈ (fs.mkdirParents p).dirs := by
  apply mem_foldl_addDir
  right
  unfold pathPrefixes
  exact List.mem_map.mpr ⟨k, List.mem_range.mpr (Nat.lt_succ_of_le hk), rfl⟩

@[simp]
theorem contentAt_mkdirParents (fs : FS) (p q : Path) :
    (fs.mkdirParents p).contentAt q = fs.contentAt q := rfl

theorem contentAt_writeFile (fs : FS) (p q : Path) (f : File) :
    (fs.writeFile p f).contentAt q = if q = p then some f.content else fs.contentAt q := by
  unfold FS.contentAt
  rw [findFile_writeFile]
  by_cases hq : q = p
  · simp [hq]
  · simp [hq]

theorem isFile_writeFile (fs : FS) (p q : Path) (f : File) :
    (fs.writeFile p f).isFile q = (q = p || fs.isFile q) := by
  unfold FS.isFile
  rw [findFile_writeFile]
  by_cases hq : q = p
  · simp [hq]
  · simp [hq]

/-! ### Characterisation of the branches of `copy_with_smart_conflict` -/

theorem pathExists_of_findFile (fs : FS) (p : Path) (f : File)
    (h : fs.findFile p = some f) : fs.pathExists p = true := by
  simp [FS.pathExists, FS.isFile, h]

theorem copy_file_nfs_safe_ok (now : Int) (fs : FS) (src dst : Path) (f : File)
    (h : fs.findFile src = some f) (hr : f.readable = true) :
    copy_file_nfs_safe now fs src dst =
      .ok ((fs.mkdirParents dst.dropLast).writeFile dst
        { content := f.content, mtime := now, readable := true }) := by
  unfold copy_file_nfs_safe
  rw [h]
  simp [hr]

theorem sha256_of_file_ok (fs : FS) (p : Path) (f : File)
    (h : fs.findFile p = some f) (hr : f.readable = true) :
    sha256_of_file fs p = .ok f.content := by
  unfold sha256_of_file
  rw [h]
  simp [hr]

theorem sha256_of_file_err (fs : FS) (p : Path) (f : File)
    (h : fs.findFile p = some f) (hr : f.readable = false) :
    sha256_of_file fs p = .error () := by
  unfold sha256_of_file
  rw [h]
  simp [hr]

/-- Branch: source path is not a regular file — defensive no-op. -/
theorem copy_branch_srcMissing (node : String) (now tol : Int) (fs : FS)
    (src dst : Path) (dry : Bool) (h : fs.isFile src = false) :
    copy_with_smart_conflict node now tol fs src dst dry =
      .ok { fs := fs, copied := false, decision := .skip, ops := [], log := [] } := by
  unfold copy_with_smart_conflict
  simp [h]

/-- Branch: destination absent, dry run — report the new file, no mutation. -/
theorem copy_branch_new_dry (node : String) (now tol : Int) (fs : FS)
    (src dst : Path) (hs : fs.isFile src = true) (hd : fs.pathExists dst = false) :
    copy_with_smart_conflict node now tol fs src dst true =
      .ok { fs := fs, copied := true, decision := .copyAsNew, ops := [],
            log := ["  -> " ++ pathStr dst ++ "  (from " ++ pathStr src ++ ") [new file]"] } := by
  unfold copy_with_smart_conflict
  simp [hs, hd]

/-- Branch: destination absent, live — create parents, copy content. -/
theorem copy_branch_new_live (node : String) (now tol : Int) (fs : FS)
    (src dst : Path) (f : File) (hs : fs.findFile src = some f)
    (hr : f.readable = true) (hd : fs.pathExists dst = false) :
    copy_with_smart_conflict node now tol fs src dst false =
      .ok { fs := ((fs.mkdirParents dst.dropLast).mkdirParents dst.dropLast).writeFile dst
                    { content := f.content, mtime := now, readable := true },
            copied := true, decision := .copyAsNew,
            ops := [.mkdirParents dst.dropLast, .copyFile src dst],
            log := ["  -> " ++ pathStr dst ++ "  (from " ++ pathStr src ++ ") [new file]"] } := by
  have hs' : fs.isFile src = true := by simp [FS.isFile, hs]
  have hcopy := copy_file_nfs_safe_ok now (fs.mkdirParents dst.dropLast) src dst f
    (by simpa using hs) hr
  unfold copy_with_smart_conflict
  simp [hs', hd, hcopy]

/-- Branch: both sides exist with equal digests — pure skip, no mutation,
no report, regardless of modification times, tolerance and dry-run flag. -/
theorem copy_branch_hashEq (node : String) (now tol : Int) (fs : FS)
    (src dst : Path) (f g : File) (dry : Bool)
    (hs : fs.findFile src = some f) (hg : fs.findFile dst = some g)
    (hrf : f.readable = true) (hrg : g.readable = true)
    (hc : f.content = g.content) :
    copy_with_smart_conflict node now tol fs src dst dry =
      .ok { fs := fs, copied := false, decision := .skip, ops := [], log := [] } := by
  have hs' : fs.isFile src = true := by simp [FS.isFile, hs]
  have hd : fs.pathExists dst = true := pathExists_of_findFile fs dst g hg
  unfold copy_with_smart_conflict
  rw [sha256_of_file_ok fs src f hs hrf, sha256_of_file_ok fs dst g hg hrg]
  simp [hs', hd, hc]

/-- Branch: digests differ and the arbiter picks the source, dry run. -/
theorem copy_branch_srcNewer_dry (node : String) (now tol : Int) (fs : FS)
    (src dst : Path) (f g : File)
    (hs : fs.findFile src = some f) (hg : fs.findFile dst = some g)
    (hrf : f.readable = true) (hrg : g.readable = true)
    (hc : f.content ≠ g.content)
    (ht : timestampArbiter (f.mtime - g.mtime) tol = .srcNewer) :
    copy_with_smart_conflict node now tol fs src dst true =
      .ok { fs := fs, copied := true, decision := .copyBecauseNewer, ops := [],
            log := ["  -> " ++ pathStr dst ++ "  (from " ++ pathStr src ++ ") [src newer]"] } := by
  have hs' : fs.isFile src = true := by simp [FS.isFile, hs]
  have hd : fs.pathExists dst = true := pathExists_of_findFile fs dst g hg
  unfold copy_with_smart_conflict
  rw [sha256_of_file_ok fs src f hs hrf, sha256_of_file_ok fs dst g hg hrg]
  simp [hs', hd, hc, hs, hg, ht]

/-- Branch: digests differ and the arbiter picks the source, live copy. -/
theorem copy_branch_srcNewer_live (node : String) (now tol : Int) (fs : FS)
    (src dst : Path) (f g : File)
    (hs : fs.findFile src = some f) (hg : fs.findFile dst = some g)
    (hrf : f.readable = true) (hrg : g.readable = true)
    (hc : f.content ≠ g.content)
    (ht : timestampArbiter (f.mtime - g.mtime) tol = .srcNewer) :
    copy_with_smart_conflict node now tol fs src dst false =
      .ok { fs := ((fs.mkdirParents dst.dropLast).mkdirParents dst.dropLast).writeFile dst
                    { content := f.content, mtime := now, readable := true },
            copied := true, decision := .copyBecauseNewer,
            ops := [.mkdirParents dst.dropLast, .copyFile src dst],
            log := ["  -> " ++ pathStr dst ++ "  (from " ++ pathStr src ++ ") [src newer]"] } := by
  have hs' : fs.isFile src = true := by simp [FS.isFile, hs]
  have hd : fs.pathExists dst = true := pathExists_of_findFile fs dst g hg
  have hcopy := copy_file_nfs_safe_ok now (fs.mkdirParents dst.dropLast) src dst f
    (by simpa using hs) hrf
  unfold copy_with_smart_conflict
  rw [sha256_of_file_ok fs src f hs hrf, sha256_of_file_ok fs dst g hg hrg]
  simp [hs', hd, hc, hs, hg, ht, hcopy]

/-- Branch: digests differ and the destination is clearly newer — silent
skip; the opposite direction is expected to pick it up. -/
theorem copy_branch_dstNewer (node : String) (now tol : Int) (fs : FS)
    (src dst : Path) (f g : File) (dry : Bool)
    (hs : fs.findFile src = some f) (hg : fs.findFile dst = some g)
    (hrf : f.readable = true) (hrg : g.readable = true)
    (hc : f.content ≠ g.content)
    (ht : timestampArbiter (f.mtime - g.mtime) tol = .dstNewer) :
    copy_with_smart_conflict node now tol fs src dst dry =
      .ok { fs := fs, copied := false, decision := .skip, ops := [], log := [] } := by
  have hs' : fs.isFile src = true := by simp [FS.isFile, hs]
  have hd : fs.pathExists dst = true := pathExists_of_findFile fs dst g hg
  unfold copy_with_smart_conflict
  rw [sha256_of_file_ok fs src f hs hrf, sha256_of_file_ok fs dst g hg hrg]
  simp [hs', hd, hc, hs, hg, ht]

/-- Branch: ambiguous timestamps, dry run — conflict reported, nothing done. -/
theorem copy_branch_conflict_dry (node : String) (now tol : Int) (fs : FS)
    (src dst : Path) (f g : File)
    (hs : fs.findFile src = some f) (hg : fs.findFile dst = some g)
    (hrf : f.readable = true) (hrg : g.readable = true)
    (hc : f.content ≠ g.content)
    (ht : timestampArbiter (f.mtime - g.mtime) tol = .ambiguous) :
    copy_with_smart_conflict node now tol fs src dst true =
      .ok { fs := fs, copied := true, decision := .copyAsConflict, ops := [],
            log := ["  !! Possible conflict on " ++ pathStr dst,
                    "     Keeping backup at "
                      ++ pathStr (conflictPath dst (resolveHost node) now),
                    "     Overwriting with " ++ pathStr src] } := by
  have hs' : fs.isFile src = true := by simp [FS.isFile, hs]
  have hd : fs.pathExists dst = true := pathExists_of_findFile fs dst g hg
  unfold copy_with_smart_conflict
  rw [sha256_of_file_ok fs src f hs hrf, sha256_of_file_ok fs dst g hg hrg]
  simp [hs', hd, hc, hs, hg, ht]

/-- Branch: ambiguous timestamps, live — back the destination up, then
overwrite it with the source, in that order. -/
theorem copy_branch_conflict_live (node : String) (now tol : Int) (fs : FS)
    (src dst : Path) (f g : File)
    (hs : fs.findFile src = some f) (hg : fs.findFile dst = some g)
    (hrf : f.readable = true) (hrg : g.readable = true)
    (hc : f.content ≠ g.content)
    (ht : timestampArbiter (f.mtime - g.mtime) tol = .ambiguous)
    (hne : src ≠ conflictPath dst (resolveHost node) now) :
    copy_with_smart_conflict node now tol fs src dst false =
      (let cp := conflictPath dst (resolveHost node) now
       let fs2 := ((fs.mkdirParents dst.dropLast).mkdirParents cp.dropLast).writeFile cp
                    { content := g.content, mtime := now, readable := true }
       .ok { fs := (fs2.mkdirParents dst.dropLast).writeFile dst
                     { content := f.content, mtime := now, readable := true },
             copied := true, decision := .copyAsConflict,
             ops := [.mkdirParents dst.dropLast, .copyFile dst (conflictPath dst (resolveHost node) now),
                     .copyFile src dst],
             log := ["  !! Possible conflict on " ++ pathStr dst,
                     "     Keeping backup at "
                       ++ pathStr (conflictPath dst (resolveHost node) now),
                     "     Overwriting with " ++ pathStr src] }) := by
  have hs' : fs.isFile src = true := by simp [FS.isFile, hs]
  have hd : fs.pathExists dst = true := pathExists_of_findFile fs dst g hg
  have hcopy1 := copy_file_nfs_safe_ok now (fs.mkdirParents dst.dropLast) dst
    (conflictPath dst (resolveHost node) now) g (by simpa using hg) hrg
  have hfind2 : (((fs.mkdirParents dst.dropLast).mkdirParents
      (conflictPath dst (resolveHost node) now).dropLast).writeFile
      (conflictPath dst (resolveHost node) now)
      { content := g.content, mtime := now, readable := true }).findFile src = some f := by
    rw [findFile_writeFile, if_neg hne]
    simpa using hs
  have hcopy2 := copy_file_nfs_safe_ok now
    (((fs.mkdirParents dst.dropLast).mkdirParents (conflictPath dst (resolveHost node) now).dropLast).writeFile
      (conflictPath dst (resolveHost node) now)
      { content := g.content, mtime := now, readable := true })
    src dst f hfind2 hrf
  unfold copy_with_smart_conflict
  rw [sha256_of_file_ok fs src f hs hrf, sha256_of_file_ok fs dst g hg hrg]
  simp [hs', hd, hc, hs, hg, ht, hcopy1, hcopy2]

/-- Branch: destination absent, live, source unreadable — the parent
directories are created, then `shutil.copyfile` raises. -/
theorem copy_branch_new_live_err (node : String) (now tol : Int) (fs : FS)
    (src dst : Path) (f : File) (hs : fs.findFile src = some f)
    (hr : f.readable = false) (hd : fs.pathExists dst = false) :
    copy_with_smart_conflict node now tol fs src dst false =
      .error (fs.mkdirParents dst.dropLast,
        ["  -> " ++ pathStr dst ++ "  (from " ++ pathStr src ++ ") [new file]"]) := by
  have hs' : fs.isFile src = true := by simp [FS.isFile, hs]
  have hcopy : copy_file_nfs_safe now (fs.mkdirParents dst.dropLast) src dst = .error () := by
    unfold copy_file_nfs_safe
    rw [findFile_mkdirParents, hs]
    simp [hr]
  unfold copy_with_smart_conflict
  simp [hs', hd, hcopy]

/-- Branch: both sides exist, hashing the source raises. -/
theorem copy_branch_hashSrc_err (node : String) (now tol : Int) (fs : FS)
    (src dst : Path) (f : File) (dry : Bool) (hs : fs.findFile src = some f)
    (hr : f.readable = false) (hd : fs.pathExists dst = true) :
    copy_with_smart_conflict node now tol fs src dst dry = .error (fs, []) := by
  have hs' : fs.isFile src = true := by simp [FS.isFile, hs]
  have hsha : sha256_of_file fs src = .error () := sha256_of_file_err fs src f hs hr
  unfold copy_with_smart_conflict
  simp [hs', hd, hsha]

/-- Branch: both sides exist, hashing the destination raises (the
destination is a directory or unreadable). -/
theorem copy_branch_hashDst_err (node : String) (now tol : Int) (fs : FS)
    (src dst : Path) (f : File) (dry : Bool) (hs : fs.findFile src = some f)
    (hr : f.readable = true) (hd : fs.pathExists dst = true)
    (hsha : sha256_of_file fs dst = .error ()) :
    copy_with_smart_conflict node now tol fs src dst dry = .error (fs, []) := by
  have hs' : fs.isFile src = true := by simp [FS.isFile, hs]
  have hshas : sha256_of_file fs src = .ok f.content := sha256_of_file_ok fs src f hs hr
  unfold copy_with_smart_conflict
  simp [hs', hd, hshas, hsha]

/-- Branch: ambiguous timestamps, live, in the degenerate case where the
source path coincides with the backup path: the overwrite then reads the
just-written backup. -/
theorem copy_branch_conflict_live_self (node : String) (now tol : Int) (fs : FS)
    (src dst : Path) (f g : File)
    (hs : fs.findFile src = some f) (hg : fs.findFile dst = some g)
    (hrf : f.readable = true) (hrg : g.readable = true)
    (hc : f.content ≠ g.content)
    (ht : timestampArbiter (f.mtime - g.mtime) tol = .ambiguous)
    (heq : src = conflictPath dst (resolveHost node) now) :
    copy_with_smart_conflict node now tol fs src dst false =
      (let cp := conflictPath dst (resolveHost node) now
       let fs2 := ((fs.mkdirParents dst.dropLast).mkdirParents cp.dropLast).writeFile cp
                    { content := g.content, mtime := now, readable := true }
       .ok { fs := (fs2.mkdirParents dst.dropLast).writeFile dst
                     { content := g.content, mtime := now, readable := true },
             copied := true, decision := .copyAsConflict,
             ops := [.mkdirParents dst.dropLast, .copyFile dst (conflictPath dst (resolveHost node) now),
                     .copyFile src dst],
             log := ["  !! Possible conflict on " ++ pathStr dst,
                     "     Keeping backup at "
                       ++ pathStr (conflictPath dst (resolveHost node) now),
                     "     Overwriting with " ++ pathStr src] }) := by
  have hs' : fs.isFile src = true := by simp [FS.isFile, hs]
  have hd : fs.pathExists dst = true := pathExists_of_findFile fs dst g hg
  have hcopy1 := copy_file_nfs_safe_ok now (fs.mkdirParents dst.dropLast) dst
    (conflictPath dst (resolveHost node) now) g (by simpa using hg) hrg
  have hfind2 : (((fs.mkdirParents dst.dropLast).mkdirParents
      (conflictPath dst (resolveHost node) now).dropLast).writeFile
      (conflictPath dst (resolveHost node) now)
      { content := g.content, mtime := now, readable := true }).findFile src =
      some { content := g.content, mtime := now, readable := true } := by
    rw [findFile_writeFile, if_pos heq]
  have hcopy2 := copy_file_nfs_safe_ok now
    (((fs.mkdirParents dst.dropLast).mkdirParents (conflictPath dst (resolveHost node) now).dropLast).writeFile
      (conflictPath dst (resolveHost node) now)
      { content := g.content, mtime := now, readable := true })
    src dst { content := g.content, mtime := now, readable := true } hfind2 rfl
  unfold copy_with_smart_conflict
  rw [sha256_of_file_ok fs src f hs hrf, sha256_of_file_ok fs dst g hg hrg]
  simp [hs', hd, hc, hs, hg, ht, hcopy1, hcopy2]

/-- Exhaustive case analysis on `copy_with_smart_conflict`: every call falls
into exactly one of these twelve situations, with the stated result. -/
theorem copy_total (node : String) (now tol : Int) (fs : FS) (src dst : Path)
    (dry : Bool) (P : Except (FS × List String) CopyResult → Prop)
    (h_missing : fs.isFile src = false →
      P (.ok { fs := fs, copied := false, decision := .skip, ops := [], log := [] }))
    (h_new_dry : ∀ f, fs.findFile src = some f → fs.pathExists dst = false → dry = true →
      P (.ok { fs := fs, copied := true, decision := .copyAsNew, ops := [],
               log := ["  -> " ++ pathStr dst ++ "  (from " ++ pathStr src ++ ") [new file]"] }))
    (h_new_live : ∀ f, fs.findFile src = some f → f.readable = true →
      fs.pathExists dst = false → dry = false →
      P (.ok { fs := ((fs.mkdirParents dst.dropLast).mkdirParents dst.dropLast).writeFile dst
                 { content := f.content, mtime := now, readable := true },
               copied := true, decision := .copyAsNew,
               ops := [.mkdirParents dst.dropLast, .copyFile src dst],
               log := ["  -> " ++ pathStr dst ++ "  (from " ++ pathStr src ++ ") [new file]"] }))
    (h_new_live_err : ∀ f, fs.findFile src = some f → f.readable = false →
      fs.pathExists dst = false → dry = false →
      P (.error (fs.mkdirParents dst.dropLast,
        ["  -> " ++ pathStr dst ++ "  (from " ++ pathStr src ++ ") [new file]"])))
    (h_src_err : ∀ f, fs.findFile src = some f → f.readable = false →
      fs.pathExists dst = true → P (.error (fs, [])))
    (h_dst_err : ∀ f, fs.findFile src = some f → f.readable = true →
      fs.pathExists dst = true → sha256_of_file fs dst = .error () → P (.error (fs, [])))
    (h_eq : ∀ f g, fs.findFile src = some f → fs.findFile dst = some g →
      f.readable = true → g.readable = true → f.content = g.content →
      P (.ok { fs := fs, copied := false, decision := .skip, ops := [], log := [] }))
    (h_srcNewer_dry : ∀ f g, fs.findFile src = some f → fs.findFile dst = some g →
      f.readable = true → g.readable = true → f.content ≠ g.content →
      timestampArbiter (f.mtime - g.mtime) tol = .srcNewer → dry = true →
      P (.ok { fs := fs, copied := true, decision := .copyBecauseNewer, ops := [],
               log := ["  -> " ++ pathStr dst ++ "  (from " ++ pathStr src ++ ") [src newer]"] }))
    (h_srcNewer_live : ∀ f g, fs.findFile src = some f → fs.findFile dst = some g →
      f.readable = true → g.readable = true → f.content ≠ g.content →
      timestampArbiter (f.mtime - g.mtime) tol = .srcNewer → dry = false →
      P (.ok { fs := ((fs.mkdirParents dst.dropLast).mkdirParents dst.dropLast).writeFile dst
                 { content := f.content, mtime := now, readable := true },
               copied := true, decision := .copyBecauseNewer,
               ops := [.mkdirParents dst.dropLast, .copyFile src dst],
               log := ["  -> " ++ pathStr dst ++ "  (from " ++ pathStr src ++ ") [src newer]"] }))
    (h_dstNewer : ∀ f g, fs.findFile src = some f → fs.findFile dst = some g →
      f.readable = true → g.readable = true → f.content ≠ g.content →
      timestampArbiter (f.mtime - g.mtime) tol = .dstNewer →
      P (.ok { fs := fs, copied := false, decision := .skip, ops := [], log := [] }))
    (h_conf_dry : ∀ f g, fs.findFile src = some f → fs.findFile dst = some g →
      f.readable = true → g.readable = true → f.content ≠ g.content →
      timestampArbiter (f.mtime - g.mtime) tol = .ambiguous → dry = true →
      P (.ok { fs := fs, copied := true, decision := .copyAsConflict, ops := [],
               log := ["  !! Possible conflict on " ++ pathStr dst,
                       "     Keeping backup at "
                         ++ pathStr (conflictPath dst (resolveHost node) now),
                       "     Overwriting with " ++ pathStr src] }))
    (h_conf_live : ∀ f g h, fs.findFile src = some f → fs.findFile dst = some g →
      f.readable = true → g.readable = true → f.content ≠ g.content →
      timestampArbiter (f.mtime - g.mtime) tol = .ambiguous → dry = false →
      ((src ≠ conflictPath dst (resolveHost node) now ∧ h = f) ∨
       (src = conflictPath dst (resolveHost node) now ∧ h = g)) →
      P (let cp := conflictPath dst (resolveHost node) now
         let fs2 := ((fs.mkdirParents dst.dropLast).mkdirParents cp.dropLast).writeFile cp
                      { content := g.content, mtime := now, readable := true }
         .ok { fs := (fs2.mkdirParents dst.dropLast).writeFile dst
                       { content := h.content, mtime := now, readable := true },
               copied := true, decision := .copyAsConflict,
               ops := [.mkdirParents dst.dropLast,
                       .copyFile dst (conflictPath dst (resolveHost node) now),
                       .copyFile src dst],
               log := ["  !! Possible conflict on " ++ pathStr dst,
                       "     Keeping backup at "
                         ++ pathStr (conflictPath dst (resolveHost node) now),
                       "     Overwriting with " ++ pathStr src] })) :
    P (copy_with_smart_conflict node now tol fs src dst dry) := by
  by_cases hsf : fs.isFile src = true
  · obtain ⟨f, hf⟩ : ∃ f, fs.findFile src = some f := by
      unfold FS.isFile at hsf
      exact Option.isSome_iff_exists.mp hsf
    by_cases hd : fs.pathExists dst = true
    · by_cases hrf : f.readable = true
      · cases hshad : sha256_of_file fs dst with
        | error e => rw [copy_branch_hashDst_err node now tol fs src dst f dry hf hrf hd hshad]
                     exact h_dst_err f hf hrf hd hshad
        | ok c =>
          obtain ⟨g, hg, hrg, hgc⟩ : ∃ g, fs.findFile dst = some g ∧ g.readable = true ∧ g.content = c := by
            unfold sha256_of_file at hshad
            cases hfg : fs.findFile dst with
            | none => simp only [hfg] at hshad; cases hshad
            | some g =>
              simp only [hfg] at hshad
              by_cases hrg : g.readable = true
              · simp only [if_pos hrg] at hshad
                exact ⟨g, rfl, hrg, by injection hshad⟩
              · simp only [if_neg hrg] at hshad; cases hshad
          by_cases hceq : f.content = g.content
          · rw [copy_branch_hashEq node now tol fs src dst f g dry hf hg hrf hrg hceq]
            exact h_eq f g hf hg hrf hrg hceq
          · cases hta : timestampArbiter (f.mtime - g.mtime) tol with
            | srcNewer =>
              cases hdry : dry with
              | true =>
                rw [copy_branch_srcNewer_dry node now tol fs src dst f g hf hg hrf hrg hceq hta]
                exact h_srcNewer_dry f g hf hg hrf hrg hceq hta hdry
              | false =>
                rw [copy_branch_srcNewer_live node now tol fs src dst f g hf hg hrf hrg hceq hta]
                exact h_srcNewer_live f g hf hg hrf hrg hceq hta hdry
            | dstNewer =>
              rw [copy_branch_dstNewer node now tol fs src dst f g dry hf hg hrf hrg hceq hta]
              exact h_dstNewer f g hf hg hrf hrg hceq hta
            | ambiguous =>
              cases hdry : dry with
              | true =>
                rw [copy_branch_conflict_dry node now tol fs src dst f g hf hg hrf hrg hceq hta]
                exact h_conf_dry f g hf hg hrf hrg hceq hta hdry
              | false =>
                by_cases hne : src = conflictPath dst (resolveHost node) now
                · rw [copy_branch_conflict_live_self node now tol fs src dst f g hf hg hrf hrg hceq hta hne]
                  exact h_conf_live f g g hf hg hrf hrg hceq hta hdry (Or.inr ⟨hne, rfl⟩)
                · rw [copy_branch_conflict_live node now tol fs src dst f g hf hg hrf hrg hceq hta hne]
                  exact h_conf_live f g f hf hg hrf hrg hceq hta hdry (Or.inl ⟨hne, rfl⟩)
      · have hrf' : f.readable = false := by simpa using hrf
        rw [copy_branch_hashSrc_err node now tol fs src dst f dry hf hrf' hd]
        exact h_src_err f hf hrf' hd
    · have hd' : fs.pathExists dst = false := by simpa using hd
      cases hdry : dry with
      | true =>
        rw [copy_branch_new_dry node now tol fs src dst hsf hd']
        exact h_new_dry f hf hd' hdry
      | false =>
        by_cases hrf : f.readable = true
        · rw [copy_branch_new_live node now tol fs src dst f hf hrf hd']
          exact h_new_live f hf hrf hd' hdry
        · have hrf' : f.readable = false := by simpa using hrf
          rw [copy_branch_new_live_err node now tol fs src dst f hf hrf' hd']
          exact h_new_live_err f hf hrf' hd' hdry
  · have hsf' : fs.isFile src = false := by simpa using hsf
    rw [copy_branch_srcMissing node now tol fs src dst dry hsf']
    exact h_missing hsf'

/-! ### Properties of the conflict-backup path -/

theorem conflictTag_length_pos (h : String) (n : Int) :
    0 < (conflictTag h n).length := by
  unfold conflictTag
  rw [String.length_append, String.length_append, String.length_append]
  have h10 : (".conflict-" : String).length = 10 := by decide
  omega

theorem conflictPath_ne (dst : Path) (h : String) (n : Int) :
    conflictPath dst h n ≠ dst := by
  intro heq
  have h1 : (dst.dropLast ++ [dst.getLastD "" ++ conflictTag h n]).getLast? =
      some (dst.getLastD "" ++ conflictTag h n) := List.getLast?_concat _
  unfold conflictPath at heq
  rw [heq] at h1
  have h2 : dst.getLastD "" = dst.getLastD "" ++ conflictTag h n := by
    conv_lhs => rw [List.getLastD_eq_getLast?, h1]
    rfl
  have h3 := congrArg String.length h2
  rw [String.length_append] at h3
  have h4 := conflictTag_length_pos h n
  omega

theorem conflictPath_dropLast (dst : Path) (h : String) (n : Int) :
    (conflictPath dst h n).dropLast = dst.dropLast := by
  unfold conflictPath
  rw [List.dropLast_concat]

/-! ### The claims -/

/-- Claim C2: when source and destination both exist with equal digests, the
decision is Skip (returning `false`), nothing is mutated, and the result does
not depend on the two modification times (free in `f.mtime`, `g.mtime`), on
the tolerance, or on the dry-run flag. -/
theorem C2_skip_on_identical_content (node : String) (now tol : Int) (fs : FS)
    (src dst : Path) (dry : Bool) (f g : File)
    (hs : fs.findFile src = some f) (hg : fs.findFile dst = some g)
    (hrf : f.readable = true) (hrg : g.readable = true)
    (hc : f.content = g.content) :
    copy_with_smart_conflict node now tol fs src dst dry =
      .ok { fs := fs, copied := false, decision := .skip, ops := [], log := [] } :=
  copy_branch_hashEq node now tol fs src dst f g dry hs hg hrf hrg hc

/-- Witness for C2 at a concrete state: equal contents, wildly different
mtimes, zero tolerance — still a pure Skip. -/
theorem C2_witness :
    copy_with_smart_conflict "h" 5 0
      ⟨[(["a"], ⟨[1], 0, true⟩), (["b"], ⟨[1], 999999, true⟩)], []⟩
      ["a"] ["b"] false =
      .ok { fs := ⟨[(["a"], ⟨[1], 0, true⟩), (["b"], ⟨[1], 999999, true⟩)], []⟩,
            copied := false, decision := .skip, ops := [], log := [] } :=
  C2_skip_on_identical_content "h" 5 0
    ⟨[(["a"], ⟨[1], 0, true⟩), (["b"], ⟨[1], 999999, true⟩)], []⟩
    ["a"] ["b"] false ⟨[1], 0, true⟩ ⟨[1], 999999, true⟩ rfl rfl rfl rfl rfl

/-- Claim C3: with tolerance `tol`, a delta of exactly `tol` in absolute
value is classified ambiguous, while any strictly larger absolute delta
yields the side with the larger timestamp as clear winner. -/
theorem C3_skew_boundary (dt tol : Int) :
    (|dt| = tol → timestampArbiter dt tol = .ambiguous) ∧
    (tol < |dt| →
      (0 < dt → timestampArbiter dt tol = .srcNewer) ∧
      (dt < 0 → timestampArbiter dt tol = .dstNewer)) := by
  unfold timestampArbiter
  constructor
  · intro h
    rw [if_neg (by simp [h])]
  · intro h
    constructor
    · intro h2
      rw [if_pos h, if_pos h2]
    · intro h2
      rw [if_pos h, if_neg (by omega)]

/-- Witness for C3 at the code's tolerance of 300 seconds. -/
theorem C3_witness :
    timestampArbiter 300 300 = .ambiguous ∧
    timestampArbiter 301 300 = .srcNewer ∧
    timestampArbiter (-301) 300 = .dstNewer :=
  ⟨(C3_skew_boundary 300 300).1 (by decide),
   ((C3_skew_boundary 301 300).2 (by decide)).1 (by decide),
   ((C3_skew_boundary (-301) 300).2 (by decide)).2 (by decide)⟩

/-- Claim C6: no branch of the per-file reconciliation ever removes a file:
any path that is a regular file beforehand is still a regular file in the
resulting state, whether the call succeeds or raises. -/
theorem C6_no_deletion (node : String) (now tol : Int) (fs : FS)
    (src dst : Path) (dry : Bool) (p : Path) (hp : fs.isFile p = true) :
    (∀ r, copy_with_smart_conflict node now tol fs src dst dry = .ok r →
      r.fs.isFile p = true) ∧
    (∀ e, copy_with_smart_conflict node now tol fs src dst dry = .error e →
      e.1.isFile p = true) := by
  apply copy_total node now tol fs src dst dry
    (fun res => (∀ r, res = .ok r → r.fs.isFile p = true) ∧
                (∀ e, res = .error e → e.1.isFile p = true))
  · intro _
    exact And.intro (fun r hr => by cases hr; exact hp) (fun e he => nomatch he)
  · intro f _ _ _
    exact And.intro (fun r hr => by cases hr; exact hp) (fun e he => nomatch he)
  · intro f _ _ _ _
    refine ⟨fun r hr => ?_, fun e he => nomatch he⟩
    cases hr
    simp [isFile_writeFile, hp]
  · intro f _ _ _ _
    refine ⟨fun r hr => (nomatch hr), fun e he => ?_⟩
    cases he
    simpa using hp
  · intro f _ _ _
    refine ⟨fun r hr => (nomatch hr), fun e he => ?_⟩
    cases he
    exact hp
  · intro f _ _ _ _
    refine ⟨fun r hr => (nomatch hr), fun e he => ?_⟩
    cases he
    exact hp
  · intro f g _ _ _ _ _
    exact And.intro (fun r hr => by cases hr; exact hp) (fun e he => nomatch he)
  · intro f g _ _ _ _ _ _ _
    exact And.intro (fun r hr => by cases hr; exact hp) (fun e he => nomatch he)
  · intro f g _ _ _ _ _ _ _
    refine ⟨fun r hr => ?_, fun e he => nomatch he⟩
    cases hr
    simp [isFile_writeFile, hp]
  · intro f g _ _ _ _ _ _
    exact And.intro (fun r hr => by cases hr; exact hp) (fun e he => nomatch he)
  · intro f g _ _ _ _ _ _ _
    exact And.intro (fun r hr => by cases hr; exact hp) (fun e he => nomatch he)
  · intro f g h _ _ _ _ _ _ _ _
    refine ⟨fun r hr => ?_, fun e he => nomatch he⟩
    cases hr
    simp [isFile_writeFile, hp]

/-- Claim C8 (amended): the three copy decisions are reported as they
happen, in dry-run and live mode alike, but a Skip decision is silent: a
successful reconciliation prints something iff its decision is not Skip. -/
theorem C8_copy_decisions_reported (node : String) (now tol : Int) (fs : FS)
    (src dst : Path) (dry : Bool) (r : CopyResult)
    (hok : copy_with_smart_conflict node now tol fs src dst dry = .ok r) :
    (r.decision = .skip ↔ r.log = []) := by
  refine copy_total node now tol fs src dst dry
    (fun res => ∀ r', res = .ok r' → (r'.decision = .skip ↔ r'.log = []))
    ?_ ?_ ?_ ?_ ?_ ?_ ?_ ?_ ?_ ?_ ?_ ?_ r hok
  · intro _ r' hr'
    cases hr'
    simp
  · intro f _ _ _ r' hr'
    cases hr'
    simp
  · intro f _ _ _ _ r' hr'
    cases hr'
    simp
  · intro f _ _ _ _ r' hr'
    exact (nomatch hr')
  · intro f _ _ _ r' hr'
    exact (nomatch hr')
  · intro f _ _ _ _ r' hr'
    exact (nomatch hr')
  · intro f g _ _ _ _ _ r' hr'
    cases hr'
    simp
  · intro f g _ _ _ _ _ _ _ r' hr'
    cases hr'
    simp
  · intro f g _ _ _ _ _ _ _ r' hr'
    cases hr'
    simp
  · intro f g _ _ _ _ _ _ r' hr'
    cases hr'
    simp
  · intro f g _ _ _ _ _ _ _ r' hr'
    cases hr'
    simp
  · intro f g h _ _ _ _ _ _ _ _ r' hr'
    cases hr'
    simp

/-- Claim C8 counterexample: a reconciliation whose decision is Skip (the
destination is the clear timestamp winner) produces no report at all, so not
every per-file decision is reported. -/
theorem C8_counterexample :
    copy_with_smart_conflict "h" 0 300
      ⟨[(["a"], ⟨[0], 0, true⟩), (["b"], ⟨[1], 400, true⟩)], []⟩
      ["a"] ["b"] false =
      .ok { fs := ⟨[(["a"], ⟨[0], 0, true⟩), (["b"], ⟨[1], 400, true⟩)], []⟩,
            copied := false, decision := .skip, ops := [], log := [] } := by
  rfl

/-- Witness for the amended C8 at a concrete dry-run copy decision. -/
theorem C8_witness :
    (({ fs := ⟨[(["a"], ⟨[0], 1000, true⟩), (["b"], ⟨[1], 0, true⟩)], []⟩,
        copied := true, decision := .copyBecauseNewer, ops := [],
        log := ["  -> " ++ pathStr ["b"] ++ "  (from " ++ pathStr ["a"] ++ ") [src newer]"] } :
        CopyResult).decision = .skip ↔
     ({ fs := ⟨[(["a"], ⟨[0], 1000, true⟩), (["b"], ⟨[1], 0, true⟩)], []⟩,
        copied := true, decision := .copyBecauseNewer, ops := [],
        log := ["  -> " ++ pathStr ["b"] ++ "  (from " ++ pathStr ["a"] ++ ") [src newer]"] } :
        CopyResult).log = []) :=
  C8_copy_decisions_reported "h" 7 300
    ⟨[(["a"], ⟨[0], 1000, true⟩), (["b"], ⟨[1], 0, true⟩)], []⟩ ["a"] ["b"] true
    _ (by rfl)

/-- Claim C9: the decision of a successful reconciliation is a pure function
of destination existence, content-hash equality, the modification-time
delta, and the skew tolerance — independent of the host, the clock, the
dry-run flag, file sizes and the concrete paths. -/
theorem C9_decision_pure (node : String) (now tol : Int) (fs : FS)
    (src dst : Path) (dry : Bool) (f : File)
    (hs : fs.findFile src = some f) (hrf : f.readable = true)
    (hdst : fs.pathExists dst = true → ∃ g, fs.findFile dst = some g ∧ g.readable = true) :
    ∃ r, copy_with_smart_conflict node now tol fs src dst dry = .ok r ∧
      r.decision = decisionOf (fs.pathExists dst)
        (decide (fs.contentAt src = fs.contentAt dst)) (dtOf fs src dst) tol := by
  refine copy_total node now tol fs src dst dry
    (fun res => ∃ r, res = .ok r ∧ r.decision = decisionOf (fs.pathExists dst)
      (decide (fs.contentAt src = fs.contentAt dst)) (dtOf fs src dst) tol)
    ?_ ?_ ?_ ?_ ?_ ?_ ?_ ?_ ?_ ?_ ?_ ?_
  · intro hsf
    simp [FS.isFile, hs] at hsf
  · intro f0 hf0 hd _
    exact ⟨_, rfl, by simp [decisionOf, hd]⟩
  · intro f0 hf0 _ hd _
    exact ⟨_, rfl, by simp [decisionOf, hd]⟩
  · intro f0 hf0 hr0 _ _
    rw [hs] at hf0
    injection hf0 with h
    subst h
    simp [hrf] at hr0
  · intro f0 hf0 hr0 _
    rw [hs] at hf0
    injection hf0 with h
    subst h
    simp [hrf] at hr0
  · intro f0 hf0 _ hd hsha
    obtain ⟨g, hg, hrg⟩ := hdst hd
    rw [sha256_of_file_ok fs dst g hg hrg] at hsha
    cases hsha
  · intro f0 g0 hf0 hg0 _ _ hceq
    have hd := pathExists_of_findFile fs dst g0 hg0
    exact ⟨_, rfl, by simp [decisionOf, hd, FS.contentAt, hf0, hg0, hceq]⟩
  · intro f0 g0 hf0 hg0 _ _ hceq hta _
    have hd := pathExists_of_findFile fs dst g0 hg0
    exact ⟨_, rfl, by simp [decisionOf, hd, FS.contentAt, hf0, hg0, hceq, dtOf, hta]⟩
  · intro f0 g0 hf0 hg0 _ _ hceq hta _
    have hd := pathExists_of_findFile fs dst g0 hg0
    exact ⟨_, rfl, by simp [decisionOf, hd, FS.contentAt, hf0, hg0, hceq, dtOf, hta]⟩
  · intro f0 g0 hf0 hg0 _ _ hceq hta
    have hd := pathExists_of_findFile fs dst g0 hg0
    exact ⟨_, rfl, by simp [decisionOf, hd, FS.contentAt, hf0, hg0, hceq, dtOf, hta]⟩
  · intro f0 g0 hf0 hg0 _ _ hceq hta _
    have hd := pathExists_of_findFile fs dst g0 hg0
    exact ⟨_, rfl, by simp [decisionOf, hd, FS.contentAt, hf0, hg0, hceq, dtOf, hta]⟩
  · intro f0 g0 h0 hf0 hg0 _ _ hceq hta _ _
    have hd := pathExists_of_findFile fs dst g0 hg0
    exact ⟨_, rfl, by simp [decisionOf, hd, FS.contentAt, hf0, hg0, hceq, dtOf, hta]⟩

/-- Witness for C9 at a concrete state where the source is the clear
timestamp winner. -/
theorem C9_witness :
    ∃ r, copy_with_smart_conflict "h" 9 300
        ⟨[(["a"], ⟨[0], 1000, true⟩), (["b"], ⟨[1], 0, true⟩)], []⟩
        ["a"] ["b"] true = .ok r ∧
      r.decision = decisionOf
        ((⟨[(["a"], ⟨[0], 1000, true⟩), (["b"], ⟨[1], 0, true⟩)], []⟩ : FS).pathExists ["b"])
        (decide ((⟨[(["a"], ⟨[0], 1000, true⟩), (["b"], ⟨[1], 0, true⟩)], []⟩ : FS).contentAt ["a"] =
                 (⟨[(["a"], ⟨[0], 1000, true⟩), (["b"], ⟨[1], 0, true⟩)], []⟩ : FS).contentAt ["b"]))
        (dtOf ⟨[(["a"], ⟨[0], 1000, true⟩), (["b"], ⟨[1], 0, true⟩)], []⟩ ["a"] ["b"]) 300 :=
  C9_decision_pure "h" 9 300
    ⟨[(["a"], ⟨[0], 1000, true⟩), (["b"], ⟨[1], 0, true⟩)], []⟩ ["a"] ["b"] true
    ⟨[0], 1000, true⟩ rfl rfl (fun _ => ⟨⟨[1], 0, true⟩, rfl, rfl⟩)

/-- Claim C1: in a live run, exactly the CopyAsConflict branch creates a
backup: its recorded mutations are parent-creation, then a copy of the
destination to the backup path, then the overwrite; replaying the first two
mutations yields a state in which the backup already holds the pre-overwrite
destination content while the destination is still unchanged, and in every
other branch every copy targets the destination itself (no backup). -/
theorem C1_backup_before_overwrite (node : String) (now tol : Int) (fs : FS)
    (src dst : Path) (r : CopyResult)
    (hok : copy_with_smart_conflict node now tol fs src dst false = .ok r) :
    (r.decision = .copyAsConflict →
      src ≠ conflictPath dst (resolveHost node) now →
      ∃ old, fs.contentAt dst = some old ∧
        r.ops = [.mkdirParents dst.dropLast,
                 .copyFile dst (conflictPath dst (resolveHost node) now),
                 .copyFile src dst] ∧
        (∃ mid, applyOps now fs (r.ops.take 2) = .ok mid ∧
          mid.contentAt (conflictPath dst (resolveHost node) now) = some old ∧
          mid.contentAt dst = some old) ∧
        applyOps now fs r.ops = .ok r.fs ∧
        r.fs.contentAt (conflictPath dst (resolveHost node) now) = some old ∧
        (∃ srcc, fs.contentAt src = some srcc ∧ r.fs.contentAt dst = some srcc)) ∧
    (r.decision ≠ .copyAsConflict →
      ∀ s d, FsOp.copyFile s d ∈ r.ops → d = dst) := by
  refine copy_total node now tol fs src dst false
    (fun res => ∀ r', res = .ok r' →
      (r'.decision = .copyAsConflict →
        src ≠ conflictPath dst (resolveHost node) now →
        ∃ old, fs.contentAt dst = some old ∧
          r'.ops = [.mkdirParents dst.dropLast,
                   .copyFile dst (conflictPath dst (resolveHost node) now),
                   .copyFile src dst] ∧
          (∃ mid, applyOps now fs (r'.ops.take 2) = .ok mid ∧
            mid.contentAt (conflictPath dst (resolveHost node) now) = some old ∧
            mid.contentAt dst = some old) ∧
          applyOps now fs r'.ops = .ok r'.fs ∧
          r'.fs.contentAt (conflictPath dst (resolveHost node) now) = some old ∧
          (∃ srcc, fs.contentAt src = some srcc ∧ r'.fs.contentAt dst = some srcc)) ∧
      (r'.decision ≠ .copyAsConflict →
        ∀ s d, FsOp.copyFile s d ∈ r'.ops → d = dst))
    ?_ ?_ ?_ ?_ ?_ ?_ ?_ ?_ ?_ ?_ ?_ ?_ r hok
  · intro _ r' hr'
    cases hr'
    refine ⟨fun h => (nomatch h), fun _ s d hm => ?_⟩
    simp at hm
  · intro f _ _ hdry r' hr'
    exact (nomatch hdry)
  · intro f _ _ _ _ r' hr'
    cases hr'
    refine ⟨fun h => (nomatch h), fun _ s d hm => ?_⟩
    simp at hm
    exact hm.2
  · intro f _ _ _ _ r' hr'
    exact (nomatch hr')
  · intro f _ _ _ r' hr'
    exact (nomatch hr')
  · intro f _ _ _ _ r' hr'
    exact (nomatch hr')
  · intro f g _ _ _ _ _ r' hr'
    cases hr'
    refine ⟨fun h => (nomatch h), fun _ s d hm => ?_⟩
    simp at hm
  · intro f g _ _ _ _ _ _ hdry r' hr'
    exact (nomatch hdry)
  · intro f g _ _ _ _ _ _ _ r' hr'
    cases hr'
    refine ⟨fun h => (nomatch h), fun _ s d hm => ?_⟩
    simp at hm
    exact hm.2
  · intro f g _ _ _ _ _ _ r' hr'
    cases hr'
    refine ⟨fun h => (nomatch h), fun _ s d hm => ?_⟩
    simp at hm
  · intro f g _ _ _ _ _ _ hdry r' hr'
    exact (nomatch hdry)
  · intro f g h0 hf0 hg0 hrf0 hrg0 hceq hta _ hsel r' hr'
    cases hr'
    refine ⟨fun _ hne => ?_, fun hd' => absurd rfl hd'⟩
    rcases hsel with ⟨hne', rfl⟩ | ⟨heqq, _⟩
    · have hdstcp : dst ≠ conflictPath dst (resolveHost node) now :=
        fun h => (conflictPath_ne dst (resolveHost node) now) h.symm
      have hstep2 := copy_file_nfs_safe_ok now (fs.mkdirParents dst.dropLast) dst
        (conflictPath dst (resolveHost node) now) g (by simpa using hg0) hrg0
      have hfind3 : (((fs.mkdirParents dst.dropLast).mkdirParents
          (conflictPath dst (resolveHost node) now).dropLast).writeFile
          (conflictPath dst (resolveHost node) now)
          { content := g.content, mtime := now, readable := true }).findFile src = some h0 := by
        rw [findFile_writeFile, if_neg hne]
        simpa using hf0
      have hstep3 := copy_file_nfs_safe_ok now
        (((fs.mkdirParents dst.dropLast).mkdirParents
          (conflictPath dst (resolveHost node) now).dropLast).writeFile
          (conflictPath dst (resolveHost node) now)
          { content := g.content, mtime := now, readable := true })
        src dst h0 hfind3 hrf0
      refine ⟨g.content, by simp [FS.contentAt, hg0], rfl, ?_, ?_, ?_, ?_⟩
      · refine ⟨((fs.mkdirParents dst.dropLast).mkdirParents
            (conflictPath dst (resolveHost node) now).dropLast).writeFile
            (conflictPath dst (resolveHost node) now)
            { content := g.content, mtime := now, readable := true }, ?_, ?_, ?_⟩
        · simp [applyOps, applyOp, hstep2]
        · rw [contentAt_writeFile, if_pos rfl]
        · rw [contentAt_writeFile, if_neg hdstcp]
          simp [FS.contentAt, hg0]
      · simp [applyOps, applyOp, hstep2, hstep3]
      · rw [contentAt_writeFile, if_neg (conflictPath_ne dst (resolveHost node) now)]
        simp [contentAt_writeFile]
      · exact ⟨h0.content, by simp [FS.contentAt, hf0], by rw [contentAt_writeFile, if_pos rfl]⟩
    · exact absurd heqq hne

/-- Witness for C1: a concrete live ambiguous-timestamp reconciliation,
with the backup visible before the overwrite when the recorded mutations
are replayed. -/
theorem C1_witness :
    ∃ old, (⟨[(["a"], ⟨[0], 0, true⟩), (["b"], ⟨[1], 10, true⟩)], []⟩ : FS).contentAt ["b"] = some old ∧
      ({ fs := ⟨[(["a"], ⟨[0], 0, true⟩), (["b"], ⟨[0], 50, true⟩),
                 (["b.conflict-h-50"], ⟨[1], 50, true⟩)], [[]]⟩,
         copied := true, decision := .copyAsConflict,
         ops := [.mkdirParents [], .copyFile ["b"] ["b.conflict-h-50"], .copyFile ["a"] ["b"]],
         log := ["  !! Possible conflict on b", "     Keeping backup at b.conflict-h-50",
                 "     Overwriting with a"] } : CopyResult).ops =
        [.mkdirParents (["b"] : Path).dropLast,
         .copyFile ["b"] (conflictPath ["b"] (resolveHost "h") 50),
         .copyFile ["a"] ["b"]] ∧
      (∃ mid, applyOps 50 ⟨[(["a"], ⟨[0], 0, true⟩), (["b"], ⟨[1], 10, true⟩)], []⟩
          (({ fs := ⟨[(["a"], ⟨[0], 0, true⟩), (["b"], ⟨[0], 50, true⟩),
                     (["b.conflict-h-50"], ⟨[1], 50, true⟩)], [[]]⟩,
              copied := true, decision := .copyAsConflict,
              ops := [.mkdirParents [], .copyFile ["b"] ["b.conflict-h-50"], .copyFile ["a"] ["b"]],
              log := ["  !! Possible conflict on b", "     Keeping backup at b.conflict-h-50",
                      "     Overwriting with a"] } : CopyResult).ops.take 2) = .ok mid ∧
        mid.contentAt (conflictPath ["b"] (resolveHost "h") 50) = some old ∧
        mid.contentAt ["b"] = some old) ∧
      applyOps 50 ⟨[(["a"], ⟨[0], 0, true⟩), (["b"], ⟨[1], 10, true⟩)], []⟩
          ({ fs := ⟨[(["a"], ⟨[0], 0, true⟩), (["b"], ⟨[0], 50, true⟩),
                     (["b.conflict-h-50"], ⟨[1], 50, true⟩)], [[]]⟩,
             copied := true, decision := .copyAsConflict,
             ops := [.mkdirParents [], .copyFile ["b"] ["b.conflict-h-50"], .copyFile ["a"] ["b"]],
             log := ["  !! Possible conflict on b", "     Keeping backup at b.conflict-h-50",
                     "     Overwriting with a"] } : CopyResult).ops =
        .ok ({ fs := ⟨[(["a"], ⟨[0], 0, true⟩), (["b"], ⟨[0], 50, true⟩),
                       (["b.conflict-h-50"], ⟨[1], 50, true⟩)], [[]]⟩,
               copied := true, decision := .copyAsConflict,
               ops := [.mkdirParents [], .copyFile ["b"] ["b.conflict-h-50"], .copyFile ["a"] ["b"]],
               log := ["  !! Possible conflict on b", "     Keeping backup at b.conflict-h-50",
                       "     Overwriting with a"] } : CopyResult).fs ∧
      ({ fs := ⟨[(["a"], ⟨[0], 0, true⟩), (["b"], ⟨[0], 50, true⟩),
                 (["b.conflict-h-50"], ⟨[1], 50, true⟩)], [[]]⟩,
         copied := true, decision := .copyAsConflict,
         ops := [.mkdirParents [], .copyFile ["b"] ["b.conflict-h-50"], .copyFile ["a"] ["b"]],
         log := ["  !! Possible conflict on b", "     Keeping backup at b.conflict-h-50",
                 "     Overwriting with a"] } : CopyResult).fs.contentAt
          (conflictPath ["b"] (resolveHost "h") 50) = some old ∧
      (∃ srcc, (⟨[(["a"], ⟨[0], 0, true⟩), (["b"], ⟨[1], 10, true⟩)], []⟩ : FS).contentAt ["a"] = some srcc ∧
        ({ fs := ⟨[(["a"], ⟨[0], 0, true⟩), (["b"], ⟨[0], 50, true⟩),
                   (["b.conflict-h-50"], ⟨[1], 50, true⟩)], [[]]⟩,
           copied := true, decision := .copyAsConflict,
           ops := [.mkdirParents [], .copyFile ["b"] ["b.conflict-h-50"], .copyFile ["a"] ["b"]],
           log := ["  !! Possible conflict on b", "     Keeping backup at b.conflict-h-50",
                   "     Overwriting with a"] } : CopyResult).fs.contentAt ["b"] = some srcc) :=
  (C1_backup_before_overwrite "h" 50 300
      ⟨[(["a"], ⟨[0], 0, true⟩), (["b"], ⟨[1], 10, true⟩)], []⟩ ["a"] ["b"]
      { fs := ⟨[(["a"], ⟨[0], 0, true⟩), (["b"], ⟨[0], 50, true⟩),
                (["b.conflict-h-50"], ⟨[1], 50, true⟩)], [[]]⟩,
        copied := true, decision := .copyAsConflict,
        ops := [.mkdirParents [], .copyFile ["b"] ["b.conflict-h-50"], .copyFile ["a"] ["b"]],
        log := ["  !! Possible conflict on b", "     Keeping backup at b.conflict-h-50",
                "     Overwriting with a"] } (by rfl)).1 (by rfl) (by decide)

/-! ### Dry-run inversion through the whole stack (for C4) -/

theorem copy_dry_inv (node : String) (now tol : Int) (fs : FS) (src dst : Path) :
    (∀ r, copy_with_smart_conflict node now tol fs src dst true = .ok r →
      r.fs = fs ∧ r.ops = []) ∧
    (∀ e, copy_with_smart_conflict node now tol fs src dst true = .error e →
      e.1 = fs) := by
  refine copy_total node now tol fs src dst true
    (fun res => (∀ r, res = .ok r → r.fs = fs ∧ r.ops = []) ∧
                (∀ e, res = .error e → e.1 = fs))
    ?_ ?_ ?_ ?_ ?_ ?_ ?_ ?_ ?_ ?_ ?_ ?_
  · intro _
    exact ⟨fun r hr => by (cases hr; exact ⟨rfl, rfl⟩), fun e he => (nomatch he)⟩
  · intro f _ _ _
    exact ⟨fun r hr => by (cases hr; exact ⟨rfl, rfl⟩), fun e he => (nomatch he)⟩
  · intro f _ _ _ hdry
    exact (nomatch hdry)
  · intro f _ _ _ hdry
    exact (nomatch hdry)
  · intro f _ _ _
    exact ⟨fun r hr => (nomatch hr), fun e he => by (cases he; rfl)⟩
  · intro f _ _ _ _
    exact ⟨fun r hr => (nomatch hr), fun e he => by (cases he; rfl)⟩
  · intro f g _ _ _ _ _
    exact ⟨fun r hr => by (cases hr; exact ⟨rfl, rfl⟩), fun e he => (nomatch he)⟩
  · intro f g _ _ _ _ _ _ _
    exact ⟨fun r hr => by (cases hr; exact ⟨rfl, rfl⟩), fun e he => (nomatch he)⟩
  · intro f g _ _ _ _ _ _ hdry
    exact (nomatch hdry)
  · intro f g _ _ _ _ _ _
    exact ⟨fun r hr => by (cases hr; exact ⟨rfl, rfl⟩), fun e he => (nomatch he)⟩
  · intro f g _ _ _ _ _ _ _
    exact ⟨fun r hr => by (cases hr; exact ⟨rfl, rfl⟩), fun e he => (nomatch he)⟩
  · intro f g h _ _ _ _ _ _ hdry _
    exact (nomatch hdry)

theorem syncFiles_dry_inv (node : String) (now tol : Int)
    (src_root dest_root : Path) (ps : List Path) (fs : FS) :
    (∀ s, syncFiles node now tol true src_root dest_root ps fs = .ok s →
      s.fs = fs ∧ s.ops = []) ∧
    (∀ e, syncFiles node now tol true src_root dest_root ps fs = .error e →
      e.1 = fs) := by
  induction ps generalizing fs with
  | nil =>
    exact ⟨fun s hs => by (cases hs; exact ⟨rfl, rfl⟩), fun e he => (nomatch he)⟩
  | cons p rest ih =>
    constructor
    · intro s hs
      unfold syncFiles at hs
      by_cases hpf : fs.isFile p = true
      · rw [if_pos hpf] at hs
        cases hcopy : copy_with_smart_conflict node now tol fs p
            (dest_root ++ p.drop src_root.length) true with
        | error e => simp only [hcopy] at hs; cases hs
        | ok r =>
          simp only [hcopy] at hs
          obtain ⟨hrfs, hrops⟩ :=
            (copy_dry_inv node now tol fs p (dest_root ++ p.drop src_root.length)).1 r hcopy
          cases hsync : syncFiles node now tol true src_root dest_root rest r.fs with
          | error e => simp only [hsync] at hs; cases hs
          | ok s2 =>
            simp only [hsync] at hs
            cases hs
            rw [hrfs] at hsync
            obtain ⟨h1, h2⟩ := (ih fs).1 s2 hsync
            exact ⟨h1, by rw [hrops, h2]; rfl⟩
      · rw [if_neg hpf] at hs
        exact (ih fs).1 s hs
    · intro e he
      unfold syncFiles at he
      by_cases hpf : fs.isFile p = true
      · rw [if_pos hpf] at he
        cases hcopy : copy_with_smart_conflict node now tol fs p
            (dest_root ++ p.drop src_root.length) true with
        | error e2 =>
          simp only [hcopy] at he
          cases he
          exact (copy_dry_inv node now tol fs p (dest_root ++ p.drop src_root.length)).2 e hcopy
        | ok r =>
          simp only [hcopy] at he
          obtain ⟨hrfs, hrops⟩ :=
            (copy_dry_inv node now tol fs p (dest_root ++ p.drop src_root.length)).1 r hcopy
          cases hsync : syncFiles node now tol true src_root dest_root rest r.fs with
          | error e2 =>
            simp only [hsync] at he
            cases he
            rw [hrfs] at hsync
            exact (ih fs).2 e2 hsync
          | ok s2 => simp only [hsync] at he; cases he
      · rw [if_neg hpf] at he
        exact (ih fs).2 e he

theorem syncDirection_dry_inv (node : String) (now tol : Int) (header : String)
    (src_root dest_root : Path) (fs : FS) :
    (∀ s, syncDirection node now tol header src_root dest_root fs true = .ok s →
      s.fs = fs ∧ s.ops = []) ∧
    (∀ e, syncDirection node now tol header src_root dest_root fs true = .error e →
      e.1 = fs) := by
  unfold syncDirection
  by_cases hd : fs.isDir src_root = true
  · rw [if_neg (by simp [hd])]
    constructor
    · intro s hs
      cases hsync : syncFiles node now tol true src_root dest_root (fs.filesUnder src_root) fs with
      | error e => simp only [hsync] at hs; cases hs
      | ok s2 =>
        simp only [hsync] at hs
        cases hs
        exact (syncFiles_dry_inv node now tol src_root dest_root (fs.filesUnder src_root) fs).1 s2 hsync
    · intro e he
      cases hsync : syncFiles node now tol true src_root dest_root (fs.filesUnder src_root) fs with
      | error e2 =>
        simp only [hsync] at he
        cases he
        exact (syncFiles_dry_inv node now tol src_root dest_root (fs.filesUnder src_root) fs).2 e2 hsync
      | ok s2 => simp only [hsync] at he; cases he
  · rw [if_pos (by simpa using hd)]
    exact ⟨fun s hs => by (cases hs; exact ⟨rfl, rfl⟩), fun e he => (nomatch he)⟩

theorem runSources_dry_inv (node : String) (now tol : Int) (central : Path)
    (sources : List SaveSource) (fs : FS) :
    (∀ out, runSources node now tol central true sources fs = .ok out →
      out.1 = fs ∧ out.2.2.1 = []) ∧
    (∀ e, runSources node now tol central true sources fs = .error e →
      e.1 = fs) := by
  induction sources generalizing fs with
  | nil =>
    exact ⟨fun out hout => by (cases hout; exact ⟨rfl, rfl⟩), fun e he => (nomatch he)⟩
  | cons s rest ih =>
    constructor
    · intro out hout
      unfold runSources at hout
      cases h1 : sync_source_to_central node now tol s central fs true with
      | error e => simp only [h1] at hout; cases hout
      | ok r1 =>
        simp only [h1] at hout
        obtain ⟨hr1fs, hr1ops⟩ :=
          (syncDirection_dry_inv node now tol _ s.path (central ++ [s.name]) fs).1 r1 h1
        cases h2 : sync_central_to_source node now tol s central r1.fs true with
        | error e => simp only [h2] at hout; cases hout
        | ok r2 =>
          simp only [h2] at hout
          rw [hr1fs] at h2
          obtain ⟨hr2fs, hr2ops⟩ :=
            (syncDirection_dry_inv node now tol _ (central ++ [s.name]) s.path fs).1 r2 h2
          cases h3 : runSources node now tol central true rest r2.fs with
          | error e => simp only [h3] at hout; cases hout
          | ok out3 =>
            simp only [h3] at hout
            cases hout
            rw [hr2fs] at h3
            obtain ⟨h3fs, h3ops⟩ := (ih fs).1 out3 h3
            exact ⟨h3fs, by rw [hr1ops, hr2ops, h3ops]; rfl⟩
    · intro e he
      unfold runSources at he
      cases h1 : sync_source_to_central node now tol s central fs true with
      | error e2 =>
        simp only [h1] at he
        cases he
        exact (syncDirection_dry_inv node now tol _ s.path (central ++ [s.name]) fs).2 e h1
      | ok r1 =>
        simp only [h1] at he
        obtain ⟨hr1fs, hr1ops⟩ :=
          (syncDirection_dry_inv node now tol _ s.path (central ++ [s.name]) fs).1 r1 h1
        cases h2 : sync_central_to_source node now tol s central r1.fs true with
        | error e2 =>
          simp only [h2] at he
          cases he
          rw [hr1fs] at h2
          exact (syncDirection_dry_inv node now tol _ (central ++ [s.name]) s.path fs).2 e2 h2
        | ok r2 =>
          simp only [h2] at he
          rw [hr1fs] at h2
          obtain ⟨hr2fs, hr2ops⟩ :=
            (syncDirection_dry_inv node now tol _ (central ++ [s.name]) s.path fs).1 r2 h2
          cases h3 : runSources node now tol central true rest r2.fs with
          | error e2 =>
            simp only [h3] at he
            cases he
            rw [hr2fs] at h3
            exact (ih fs).2 e2 h3
          | ok out3 => simp only [h3] at he; cases he

/-- Claim C4 (amended): with the dry-run flag set, the per-file pipeline
performs no mutation whatsoever — no copy, no backup, no per-file directory
creation — but the central root directory is still created unconditionally
at startup (savesync.py:309), even in dry-run; the run's state change is
exactly that `mkdir`. -/
theorem C4_dry_run_suppresses_all_but_central_mkdir (node : String) (now : Int)
    (central : Path) (sources : List SaveSource) (fs : FS) :
    (∀ r, main node now central sources fs true = .ok r →
      r.fs = fs.mkdirParents central ∧ r.fs.files = fs.files ∧
      r.ops = [.mkdirParents central]) ∧
    (∀ e, main node now central sources fs true = .error e →
      e.1 = fs.mkdirParents central) := by
  unfold main
  by_cases hempty : sources.isEmpty = true
  · rw [if_pos hempty]
    exact ⟨fun r hr => by (cases hr; exact ⟨rfl, rfl, rfl⟩), fun e he => (nomatch he)⟩
  · rw [if_neg (by simpa using hempty)]
    constructor
    · intro r hr
      cases hrun : runSources node now SKEW_ALLOWANCE_SECONDS central true sources
          (fs.mkdirParents central) with
      | error e => simp only [hrun] at hr; cases hr
      | ok out =>
        simp only [hrun] at hr
        cases hr
        obtain ⟨h1, h2⟩ :=
          (runSources_dry_inv node now SKEW_ALLOWANCE_SECONDS central sources
            (fs.mkdirParents central)).1 out hrun
        exact ⟨h1, by simp [h1], by rw [h2]⟩
    · intro e he
      cases hrun : runSources node now SKEW_ALLOWANCE_SECONDS central true sources
          (fs.mkdirParents central) with
      | error e2 =>
        simp only [hrun] at he
        cases he
        exact (runSources_dry_inv node now SKEW_ALLOWANCE_SECONDS central sources
          (fs.mkdirParents central)).2 e hrun
      | ok out => simp only [hrun] at he; cases he

/-- Claim C4 counterexample: a dry run still mutates the filesystem — with
the central root absent, `main` creates it (a directory creation) even
though dry-run promises to suppress every mutation. -/
theorem C4_counterexample :
    (main "h" 0 ["c"] [⟨"s", ["l"]⟩]
        ⟨[(["l", "x"], ⟨[0], 0, true⟩)], [["l"]]⟩ true).map (fun r => r.fs) =
      .ok ⟨[(["l", "x"], ⟨[0], 0, true⟩)], [["l"], [], ["c"]]⟩ ∧
    (⟨[(["l", "x"], ⟨[0], 0, true⟩)], [["l"], [], ["c"]]⟩ : FS) ≠
      ⟨[(["l", "x"], ⟨[0], 0, true⟩)], [["l"]]⟩ :=
  ⟨by rfl, by decide⟩

/-- Witness for the amended C4 at a concrete dry run. -/
theorem C4_witness :
    ({ fs := (⟨[(["l", "x"], ⟨[0], 0, true⟩)], [["l"]]⟩ : FS).mkdirParents ["c"],
       exitCode := 1, counts := [], ops := [.mkdirParents ["c"]],
       log := ["No existing save sources found. Edit get_save_sources() paths."] } :
         RunResult).fs =
        (⟨[(["l", "x"], ⟨[0], 0, true⟩)], [["l"]]⟩ : FS).mkdirParents ["c"] ∧
    ({ fs := (⟨[(["l", "x"], ⟨[0], 0, true⟩)], [["l"]]⟩ : FS).mkdirParents ["c"],
       exitCode := 1, counts := [], ops := [.mkdirParents ["c"]],
       log := ["No existing save sources found. Edit get_save_sources() paths."] } :
         RunResult).fs.files =
        (⟨[(["l", "x"], ⟨[0], 0, true⟩)], [["l"]]⟩ : FS).files ∧
    ({ fs := (⟨[(["l", "x"], ⟨[0], 0, true⟩)], [["l"]]⟩ : FS).mkdirParents ["c"],
       exitCode := 1, counts := [], ops := [.mkdirParents ["c"]],
       log := ["No existing save sources found. Edit get_save_sources() paths."] } :
         RunResult).ops = [.mkdirParents ["c"]] :=
  (C4_dry_run_suppresses_all_but_central_mkdir "h" 0 ["c"] []
      ⟨[(["l", "x"], ⟨[0], 0, true⟩)], [["l"]]⟩).1 _ (by rfl)

/-- Claim C5 evidence: an unreadable file does not fail as a per-file error —
the exception from hashing it propagates out of the whole run (`main`
returns the error), and the remaining readable file `l/b` is never
reconciled: its mirror `c/s/b` does not exist in the aborted state.  The
per-file loop (savesync.py:258-264) has no exception handling. -/
theorem C5_unreadable_file_aborts_whole_run :
    main "h" 0 ["c"] [⟨"s", ["l"]⟩]
        ⟨[(["l", "a"], ⟨[0], 0, false⟩), (["l", "b"], ⟨[2], 0, true⟩),
          (["c", "s", "a"], ⟨[1], 0, true⟩)], [["l"], ["c"], ["c", "s"]]⟩ false =
      .error (⟨[(["l", "a"], ⟨[0], 0, false⟩), (["l", "b"], ⟨[2], 0, true⟩),
                (["c", "s", "a"], ⟨[1], 0, true⟩)], [["l"], ["c"], ["c", "s"], []]⟩,
              ["=== Pushing s -> NAS ==="]) ∧
    (⟨[(["l", "a"], ⟨[0], 0, false⟩), (["l", "b"], ⟨[2], 0, true⟩),
       (["c", "s", "a"], ⟨[1], 0, true⟩)], [["l"], ["c"], ["c", "s"], []]⟩ : FS).findFile
        ["c", "s", "b"] = none :=
  ⟨by rfl, by rfl⟩

theorem strictUnder_conflictPath (root dst : Path) (h : String) (n : Int)
    (hu : strictUnder root dst = true) :
    strictUnder root (conflictPath dst h n) = true := by
  unfold strictUnder at hu
  rw [Bool.and_eq_true] at hu
  obtain ⟨hpre, hlen⟩ := hu
  rw [List.isPrefixOf_iff_prefix] at hpre
  rw [decide_eq_true_eq] at hlen
  have h1 : root = dst.take root.length := List.prefix_iff_eq_take.mp hpre
  have h2 : root <+: dst.dropLast := by
    rw [List.dropLast_eq_take, h1]
    exact List.take_prefix_take_left _ (by omega)
  have h3 : root <+: conflictPath dst h n := by
    unfold conflictPath
    exact h2.trans (List.prefix_append _ _)
  unfold strictUnder
  rw [Bool.and_eq_true, List.isPrefixOf_iff_prefix, decide_eq_true_eq]
  refine ⟨h3, ?_⟩
  unfold conflictPath
  rw [List.length_append, List.length_dropLast]
  simp only [List.length_singleton]
  omega

/-- Claim C10: the conflict backup is a sibling file inside the destination
tree (same parent directory, still strictly under any root the destination
is under); traversal enumerates every regular file below a root with no name
filtering; and on a later pass a backup file absent on the other side is
reconciled like any ordinary file: CopyAsNew, transferring its content. -/
theorem C10_backup_is_ordinary_file :
    (∀ (dst : Path) (h : String) (n : Int),
      (conflictPath dst h n).dropLast = dst.dropLast) ∧
    (∀ (root dst : Path) (h : String) (n : Int), strictUnder root dst = true →
      strictUnder root (conflictPath dst h n) = true) ∧
    (∀ (fs : FS) (root p : Path), p ∈ fs.filePaths → strictUnder root p = true →
      p ∈ fs.filesUnder root) ∧
    (∀ (node : String) (now tol : Int) (fs : FS) (bp target : Path) (f : File),
      fs.findFile bp = some f → f.readable = true → fs.pathExists target = false →
      ∃ r, copy_with_smart_conflict node now tol fs bp target false = .ok r ∧
        r.copied = true ∧ r.decision = .copyAsNew ∧
        r.fs.contentAt target = some f.content) := by
  refine ⟨conflictPath_dropLast, strictUnder_conflictPath, ?_, ?_⟩
  · intro fs root p hp hu
    unfold FS.filesUnder
    unfold FS.filePaths at hp
    exact List.mem_filter.mpr ⟨hp, hu⟩
  · intro node now tol fs bp target f hf hrf hne
    refine ⟨_, copy_branch_new_live node now tol fs bp target f hf hrf hne, rfl, rfl, ?_⟩
    rw [contentAt_writeFile, if_pos rfl]

/-- Witness for C10 at a concrete backup file in a central subtree, pulled
to the other side as a new file. -/
theorem C10_witness :
    (conflictPath ["c", "s", "x"] "h" 5).dropLast = (["c", "s", "x"] : Path).dropLast ∧
    strictUnder ["c", "s"] (conflictPath ["c", "s", "x"] "h" 5) = true ∧
    ["c", "s", "x.conflict-h-5"] ∈
      (⟨[(["c", "s", "x.conflict-h-5"], ⟨[1], 0, true⟩)], []⟩ : FS).filesUnder ["c", "s"] ∧
    (∃ r, copy_with_smart_conflict "h" 9 300
        ⟨[(["c", "s", "x.conflict-h-5"], ⟨[1], 0, true⟩)], []⟩
        ["c", "s", "x.conflict-h-5"] ["l", "x.conflict-h-5"] false = .ok r ∧
      r.copied = true ∧ r.decision = .copyAsNew ∧
      r.fs.contentAt ["l", "x.conflict-h-5"] = some [1]) :=
  ⟨C10_backup_is_ordinary_file.1 ["c", "s", "x"] "h" 5,
   C10_backup_is_ordinary_file.2.1 ["c", "s"] ["c", "s", "x"] "h" 5 (by decide),
   C10_backup_is_ordinary_file.2.2.1
     ⟨[(["c", "s", "x.conflict-h-5"], ⟨[1], 0, true⟩)], []⟩ ["c", "s"]
     ["c", "s", "x.conflict-h-5"] (by decide) (by decide),
   C10_backup_is_ordinary_file.2.2.2 "h" 9 300
     ⟨[(["c", "s", "x.conflict-h-5"], ⟨[1], 0, true⟩)], []⟩
     ["c", "s", "x.conflict-h-5"] ["l", "x.conflict-h-5"] ⟨[1], 0, true⟩
     rfl rfl rfl⟩

/-- Claim C7 counterexample: two successive live runs with no external
change in between, where the second run still copies a file.  The local tree
holds `x` and a file whose name collides with the conflict-backup name
`x.conflict-h-50` that the first run generates; the first run's pull then
conflicts on that file and leaves a fresh local backup which the second run
pushes as a new file, so the second run's counts are [1, 0], not all zero. -/
theorem C7_counterexample :
    ((main "h" 50 ["c"] [⟨"s", ["l"]⟩]
        ⟨[(["l", "x.conflict-h-50"], ⟨[2], 40, true⟩),
          (["l", "x"], ⟨[0], 0, true⟩),
          (["c", "s", "x"], ⟨[1], 100, true⟩)], [["l"], ["c"], ["c", "s"]]⟩ false).bind
      (fun r => main "h" 60 ["c"] [⟨"s", ["l"]⟩] r.fs false)).map RunResult.counts =
      .ok [1, 0] ∧
    ¬ ∀ c ∈ ([1, 0] : List Nat), c = 0 :=
  ⟨by rfl, by decide⟩

/-! ### Path and arbiter lemmas for the amended C7 -/

theorem isFile_iff_mem_filePaths (fs : FS) (p : Path) :
    fs.isFile p = true ↔ p ∈ fs.filePaths := by
  unfold FS.isFile FS.findFile FS.filePaths
  induction fs.files with
  | nil => simp
  | cons e t ih =>
    rw [List.find?_cons]
    by_cases he : e.1 = p
    · rw [decide_eq_true he]
      constructor
      · intro _
        simp only [List.map_cons, List.mem_cons]
        exact Or.inl he.symm
      · intro _
        rfl
    · rw [decide_eq_false he]
      simp only [List.map_cons, List.mem_cons]
      rw [ih]
      constructor
      · exact fun h => Or.inr h
      · rintro (h | h)
        · exact absurd h.symm he
        · exact h

theorem mem_filesUnder_iff (fs : FS) (root p : Path) :
    p ∈ fs.filesUnder root ↔ p ∈ fs.filePaths ∧ strictUnder root p = true := by
  unfold FS.filesUnder FS.filePaths
  rw [List.mem_filter]

theorem strictUnder_append (a rel : Path) (h : rel ≠ []) :
    strictUnder a (a ++ rel) = true := by
  unfold strictUnder
  rw [Bool.and_eq_true, List.isPrefixOf_iff_prefix, decide_eq_true_eq]
  refine ⟨⟨rel, rfl⟩, ?_⟩
  rw [List.length_append]
  have : 0 < rel.length := List.length_pos.mpr h
  omega

theorem eq_append_drop_of_strictUnder (a p : Path)
    (h : strictUnder a p = true) : p = a ++ p.drop a.length := by
  unfold strictUnder at h
  rw [Bool.and_eq_true, List.isPrefixOf_iff_prefix] at h
  obtain ⟨⟨t, ht⟩, _⟩ := h
  conv_lhs => rw [← ht]
  rw [← ht, List.drop_left]

theorem drop_ne_nil_of_strictUnder (a p : Path)
    (h : strictUnder a p = true) : p.drop a.length ≠ [] := by
  unfold strictUnder at h
  rw [Bool.and_eq_true, decide_eq_true_eq] at h
  intro hnil
  have := List.drop_eq_nil_iff.mp hnil
  omega

theorem mirror_strictUnder (a b p : Path) (h : strictUnder a p = true) :
    strictUnder b (mirror a b p) = true := by
  unfold mirror
  exact strictUnder_append b _ (drop_ne_nil_of_strictUnder a p h)

theorem mirror_append (a b rel : Path) :
    mirror a b (a ++ rel) = b ++ rel := by
  unfold mirror
  rw [List.drop_left]

theorem mirror_inj (a b p q : Path) (hp : strictUnder a p = true)
    (hq : strictUnder a q = true) (h : mirror a b p = mirror a b q) : p = q := by
  unfold mirror at h
  have h2 := List.append_cancel_left h
  rw [eq_append_drop_of_strictUnder a p hp, eq_append_drop_of_strictUnder a q hq, h2]

theorem mirror_mirror (a b p : Path) (hp : strictUnder a p = true) :
    mirror b a (mirror a b p) = p := by
  conv_lhs => rw [eq_append_drop_of_strictUnder a p hp, mirror_append]
  rw [mirror_append]
  exact (eq_append_drop_of_strictUnder a p hp).symm

theorem indep_not_under (a b p : Path) (hind : indepRoots a b)
    (ha : strictUnder a p = true) : strictUnder b p = false := by
  by_contra hb
  rw [Bool.not_eq_false] at hb
  unfold strictUnder at ha hb
  rw [Bool.and_eq_true, List.isPrefixOf_iff_prefix, decide_eq_true_eq] at ha hb
  rcases List.prefix_or_prefix_of_prefix ha.1 hb.1 with h | h
  · exact hind.1 (List.isPrefixOf_iff_prefix.mpr h)
  · exact hind.2 (List.isPrefixOf_iff_prefix.mpr h)

theorem strictUnder_ne (a p : Path) (h : strictUnder a p = true) : p ≠ a := by
  unfold strictUnder at h
  rw [Bool.and_eq_true, decide_eq_true_eq] at h
  intro he
  rw [he] at h
  omega

theorem conflictPath_getLastD (dst : Path) (h : String) (n : Int) :
    (conflictPath dst h n).getLastD "" = dst.getLastD "" ++ conflictTag h n := by
  unfold conflictPath
  rw [List.getLastD_eq_getLast?, List.getLast?_concat]
  rfl

theorem tag_suffix_conflictPath (dst : Path) (h : String) (n : Int) :
    (conflictTag h n).data <:+ ((conflictPath dst h n).getLastD "").data := by
  rw [conflictPath_getLastD, String.data_append]
  exact List.suffix_append _ _

theorem untagged_ne_conflictPath (p dst : Path) (h : String) (n : Int)
    (hu : ¬ (conflictTag h n).data <:+ (p.getLastD "").data) :
    p ≠ conflictPath dst h n := by
  intro he
  apply hu
  rw [he]
  exact tag_suffix_conflictPath dst h n

theorem arbiter_dstNewer_flip (dt tol : Int) (htol : 0 ≤ tol)
    (h : timestampArbiter dt tol = .dstNewer) :
    timestampArbiter (-dt) tol = .srcNewer := by
  unfold timestampArbiter at *
  by_cases h1 : tol < |dt|
  · rw [if_pos h1] at h
    by_cases h2 : 0 < dt
    · rw [if_pos h2] at h
      cases h
    · rw [if_neg h2] at h
      have hne : dt ≠ 0 := by
        intro h0
        rw [h0] at h1
        simp at h1
        omega
      rw [if_pos (by rw [abs_neg]; exact h1), if_pos (by omega)]
  · rw [if_neg h1] at h
    cases h

/-! ### writeFile-level frame lemmas -/

theorem filePaths_writeFile (fs : FS) (p : Path) (f : File) :
    (fs.writeFile p f).filePaths =
      if fs.isFile p then fs.filePaths else fs.filePaths ++ [p] := by
  unfold FS.writeFile FS.filePaths
  by_cases hp : fs.isFile p
  · rw [if_pos hp, if_pos hp]
    simp only [List.map_map]
    apply List.map_congr_left
    intro e _
    by_cases he : e.1 = p
    · simp [Function.comp, he]
    · simp [Function.comp, he]
  · rw [if_neg hp, if_neg hp]
    simp

theorem filesUnder_writeFile_out (fs : FS) (p : Path) (f : File) (root : Path)
    (h : strictUnder root p = false) :
    (fs.writeFile p f).filesUnder root = fs.filesUnder root := by
  have hfp := filePaths_writeFile fs p f
  unfold FS.filesUnder
  unfold FS.filePaths at hfp
  rw [hfp]
  by_cases hp : fs.isFile p
  · rw [if_pos hp]
  · rw [if_neg hp, List.filter_append]
    simp [h]

theorem filesUnder_mkdirParents (fs : FS) (p root : Path) :
    (fs.mkdirParents p).filesUnder root = fs.filesUnder root := rfl

theorem allReadable_writeFile (fs : FS) (p : Path) (f : File)
    (h : fs.allReadable) (hf : f.readable = true) :
    (fs.writeFile p f).allReadable := by
  unfold FS.writeFile
  by_cases hp : fs.isFile p
  · rw [if_pos hp]
    intro e he
    simp only [List.mem_map] at he
    obtain ⟨e0, he0, rfl⟩ := he
    by_cases h0 : e0.1 = p
    · simpa [h0] using hf
    · simpa [h0] using h e0 he0
  · rw [if_neg hp]
    intro e he
    rcases List.mem_append.mp he with h1 | h1
    · exact h e h1
    · simp only [List.mem_singleton] at h1
      rw [h1]
      exact hf

theorem allReadable_mkdirParents (fs : FS) (p : Path)
    (h : fs.allReadable) : (fs.mkdirParents p).allReadable := h

/-! ### Step lemmas for the run-level induction -/

/-- One live reconciliation step, arbitrary branch: mutations stay within
the destination and its backup path; afterwards source and destination agree
or the destination was the untouched clear winner; files are never removed;
readability is preserved; other trees are untouched. -/
theorem copy_step_push (node : String) (now tol : Int) (fs : FS)
    (src dst : Path) (r : CopyResult)
    (hsf : fs.isFile src = true) (hsd : src ≠ dst)
    (hscp : src ≠ conflictPath dst (resolveHost node) now)
    (hok : copy_with_smart_conflict node now tol fs src dst false = .ok r) :
    (∀ q, q ≠ dst → q ≠ conflictPath dst (resolveHost node) now →
       r.fs.findFile q = fs.findFile q) ∧
    (∃ f g, r.fs.findFile src = some f ∧ r.fs.findFile dst = some g ∧
       f.readable = true ∧ g.readable = true ∧
       (f.content = g.content ∨
         (timestampArbiter (f.mtime - g.mtime) tol = .dstNewer ∧
          fs.findFile src = some f ∧ fs.findFile dst = some g))) ∧
    (∀ x, fs.isFile x = true → r.fs.isFile x = true) ∧
    (fs.allReadable → r.fs.allReadable) ∧
    (∀ R, strictUnder R dst = false →
       strictUnder R (conflictPath dst (resolveHost node) now) = false →
       r.fs.filesUnder R = fs.filesUnder R) := by
  refine copy_total node now tol fs src dst false
    (fun res => ∀ r', res = .ok r' →
      (∀ q, q ≠ dst → q ≠ conflictPath dst (resolveHost node) now →
         r'.fs.findFile q = fs.findFile q) ∧
      (∃ f g, r'.fs.findFile src = some f ∧ r'.fs.findFile dst = some g ∧
         f.readable = true ∧ g.readable = true ∧
         (f.content = g.content ∨
           (timestampArbiter (f.mtime - g.mtime) tol = .dstNewer ∧
            fs.findFile src = some f ∧ fs.findFile dst = some g))) ∧
      (∀ x, fs.isFile x = true → r'.fs.isFile x = true) ∧
      (fs.allReadable → r'.fs.allReadable) ∧
      (∀ R, strictUnder R dst = false →
         strictUnder R (conflictPath dst (resolveHost node) now) = false →
         r'.fs.filesUnder R = fs.filesUnder R))
    ?_ ?_ ?_ ?_ ?_ ?_ ?_ ?_ ?_ ?_ ?_ ?_ r hok
  · intro h _ _
    rw [h] at hsf
    cases hsf
  · intro f _ _ hdry
    exact (nomatch hdry)
  · intro f hf hrf _ _ r' hr'
    cases hr'
    refine ⟨?_, ?_, ?_, ?_, ?_⟩
    · intro q hq _
      simp [findFile_writeFile, hq]
    · refine ⟨f, ⟨f.content, now, true⟩, ?_, ?_, hrf, rfl, Or.inl rfl⟩
      · simp [findFile_writeFile, hsd, hf]
      · simp [findFile_writeFile]
    · intro x hx
      simp [isFile_writeFile, hx]
    · intro hall
      exact allReadable_writeFile _ _ _ hall rfl
    · intro R hR _
      rw [filesUnder_writeFile_out _ _ _ _ hR]
      rfl
  · intro f _ _ _ _ r' hr'
    exact (nomatch hr')
  · intro f _ _ _ r' hr'
    exact (nomatch hr')
  · intro f _ _ _ _ r' hr'
    exact (nomatch hr')
  · intro f g hf hg hrf hrg hc r' hr'
    cases hr'
    refine ⟨fun q _ _ => rfl, ⟨f, g, hf, hg, hrf, hrg, Or.inl hc⟩,
      fun x hx => hx, fun hall => hall, fun R _ _ => rfl⟩
  · intro f g _ _ _ _ _ _ hdry
    exact (nomatch hdry)
  · intro f g hf hg hrf hrg hc hta _ r' hr'
    cases hr'
    refine ⟨?_, ?_, ?_, ?_, ?_⟩
    · intro q hq _
      simp [findFile_writeFile, hq]
    · refine ⟨f, ⟨f.content, now, true⟩, ?_, ?_, hrf, rfl, Or.inl rfl⟩
      · simp [findFile_writeFile, hsd, hf]
      · simp [findFile_writeFile]
    · intro x hx
      simp [isFile_writeFile, hx]
    · intro hall
      exact allReadable_writeFile _ _ _ hall rfl
    · intro R hR _
      rw [filesUnder_writeFile_out _ _ _ _ hR]
      rfl
  · intro f g hf hg hrf hrg hc hta r' hr'
    cases hr'
    exact ⟨fun q _ _ => rfl, ⟨f, g, hf, hg, hrf, hrg, Or.inr ⟨hta, hf, hg⟩⟩,
      fun x hx => hx, fun hall => hall, fun R _ _ => rfl⟩
  · intro f g _ _ _ _ _ _ hdry
    exact (nomatch hdry)
  · intro f g h0 hf hg hrf hrg hc hta _ hsel r' hr'
    cases hr'
    rcases hsel with ⟨hne, rfl⟩ | ⟨heqq, _⟩
    · refine ⟨?_, ?_, ?_, ?_, ?_⟩
      · intro q hq hqcp
        simp [findFile_writeFile, hq, hqcp]
      · refine ⟨h0, ⟨h0.content, now, true⟩, ?_, ?_, hrf, rfl, Or.inl rfl⟩
        · simp [findFile_writeFile, hsd, hscp, hf]
        · simp [findFile_writeFile]
      · intro x hx
        simp [isFile_writeFile, hx]
      · intro hall
        exact allReadable_writeFile _ _ _
          (allReadable_writeFile _ _ _ hall rfl) rfl
      · intro R hR hRcp
        rw [filesUnder_writeFile_out _ _ _ _ hR, filesUnder_mkdirParents,
          filesUnder_writeFile_out _ _ _ _ hRcp]
        rfl
    · exact absurd heqq hscp

/-- One live reconciliation step on a pair that cannot conflict: the only
path written is the destination itself (no backup), and afterwards the pair
agrees or the destination was the untouched clear winner. -/
theorem copy_step_pull (node : String) (now tol : Int) (fs : FS)
    (src dst : Path) (r : CopyResult)
    (hgp : GoodPair fs tol src dst)
    (hok : copy_with_smart_conflict node now tol fs src dst false = .ok r) :
    (∀ q, q ≠ dst → r.fs.findFile q = fs.findFile q) ∧
    (∃ f g, r.fs.findFile src = some f ∧ r.fs.findFile dst = some g ∧
       f.readable = true ∧ g.readable = true ∧
       (f.content = g.content ∨
         (timestampArbiter (f.mtime - g.mtime) tol = .dstNewer ∧
          fs.findFile src = some f ∧ fs.findFile dst = some g))) ∧
    (∀ x, fs.isFile x = true → r.fs.isFile x = true) ∧
    (fs.allReadable → r.fs.allReadable) ∧
    (∀ R, strictUnder R dst = false → r.fs.filesUnder R = fs.filesUnder R) := by
  obtain ⟨f0, hf0, hrf0, hrest⟩ := hgp
  refine copy_total node now tol fs src dst false
    (fun res => ∀ r', res = .ok r' →
      (∀ q, q ≠ dst → r'.fs.findFile q = fs.findFile q) ∧
      (∃ f g, r'.fs.findFile src = some f ∧ r'.fs.findFile dst = some g ∧
         f.readable = true ∧ g.readable = true ∧
         (f.content = g.content ∨
           (timestampArbiter (f.mtime - g.mtime) tol = .dstNewer ∧
            fs.findFile src = some f ∧ fs.findFile dst = some g))) ∧
      (∀ x, fs.isFile x = true → r'.fs.isFile x = true) ∧
      (fs.allReadable → r'.fs.allReadable) ∧
      (∀ R, strictUnder R dst = false → r'.fs.filesUnder R = fs.filesUnder R))
    ?_ ?_ ?_ ?_ ?_ ?_ ?_ ?_ ?_ ?_ ?_ ?_ r hok
  · intro h _ _
    rw [FS.isFile, hf0] at h
    cases h
  · intro f _ _ hdry
    exact (nomatch hdry)
  · intro f hf hrf hd _ r' hr'
    cases hr'
    have hsd : src ≠ dst := by
      intro he
      rw [he] at hf
      have hpe := pathExists_of_findFile fs dst f hf
      rw [hd] at hpe
      cases hpe
    refine ⟨?_, ?_, ?_, ?_, ?_⟩
    · intro q hq
      simp [findFile_writeFile, hq]
    · refine ⟨f, ⟨f.content, now, true⟩, ?_, ?_, hrf, rfl, Or.inl rfl⟩
      · simp [findFile_writeFile, hsd, hf]
      · simp [findFile_writeFile]
    · intro x hx
      simp [isFile_writeFile, hx]
    · intro hall
      exact allReadable_writeFile _ _ _ hall rfl
    · intro R hR
      rw [filesUnder_writeFile_out _ _ _ _ hR]
      rfl
  · intro f hf hrf _ _ r' hr'
    exact (nomatch hr')
  · intro f hf hrf _ r' hr'
    exact (nomatch hr')
  · intro f _ _ _ _ r' hr'
    exact (nomatch hr')
  · intro f g hf hg hrf hrg hc r' hr'
    cases hr'
    exact ⟨fun q _ => rfl, ⟨f, g, hf, hg, hrf, hrg, Or.inl hc⟩,
      fun x hx => hx, fun hall => hall, fun R _ => rfl⟩
  · intro f g _ _ _ _ _ _ hdry
    exact (nomatch hdry)
  · intro f g hf hg hrf hrg hc hta _ r' hr'
    cases hr'
    have hsd : src ≠ dst := by
      intro he
      rw [he, hg] at hf
      injection hf with hf2
      exact hc (by rw [hf2])
    refine ⟨?_, ?_, ?_, ?_, ?_⟩
    · intro q hq
      simp [findFile_writeFile, hq]
    · refine ⟨f, ⟨f.content, now, true⟩, ?_, ?_, hrf, rfl, Or.inl rfl⟩
      · simp [findFile_writeFile, hsd, hf]
      · simp [findFile_writeFile]
    · intro x hx
      simp [isFile_writeFile, hx]
    · intro hall
      exact allReadable_writeFile _ _ _ hall rfl
    · intro R hR
      rw [filesUnder_writeFile_out _ _ _ _ hR]
      rfl
  · intro f g hf hg hrf hrg hc hta r' hr'
    cases hr'
    exact ⟨fun q _ => rfl, ⟨f, g, hf, hg, hrf, hrg, Or.inr ⟨hta, hf, hg⟩⟩,
      fun x hx => hx, fun hall => hall, fun R _ => rfl⟩
  · intro f g _ _ _ _ _ _ hdry
    exact (nomatch hdry)
  · intro f g h0 hf hg hrf hrg hc hta _ _ r' hr'
    exfalso
    rw [hf0] at hf
    injection hf with hf
    rcases hrest with h1 | ⟨g0, hg0, _, h2⟩
    · rw [FS.isFile, hg] at h1
      cases h1
    · rw [hg0] at hg
      injection hg with hg
      rcases h2 with h2 | h2
      · rw [hf, hg] at h2
        exact hc h2
      · rw [hf, hg] at h2
        exact h2 hta

theorem getLastD_append_right (a b : Path) (d : String) (h : b ≠ []) :
    (a ++ b).getLastD d = b.getLastD d := by
  rw [List.getLastD_eq_getLast?, List.getLastD_eq_getLast?, List.getLast?_append_of_ne_nil a h]

theorem mirror_getLastD (a b p : Path) (h : strictUnder a p = true) :
    (mirror a b p).getLastD "" = p.getLastD "" := by
  have hrel := drop_ne_nil_of_strictUnder a p h
  unfold mirror
  rw [getLastD_append_right _ _ _ hrel]
  conv_rhs => rw [eq_append_drop_of_strictUnder a p h, getLastD_append_right _ _ _ hrel]

/-- Every file pair already in agreement: the whole per-file loop does
nothing and copies zero files. -/
theorem syncFiles_allskip (node : String) (now tol : Int)
    (src_root dest_root : Path) (ps : List Path) (fs : FS)
    (hps : ∀ p ∈ ps, ∃ f g, fs.findFile p = some f ∧
      fs.findFile (mirror src_root dest_root p) = some g ∧
      f.readable = true ∧ g.readable = true ∧ f.content = g.content) :
    syncFiles node now tol false src_root dest_root ps fs =
      .ok { fs := fs, copied := 0, ops := [], log := [] } := by
  induction ps with
  | nil => rfl
  | cons p rest ih =>
    obtain ⟨f, g, hf, hg, hrf, hrg, hc⟩ := hps p (List.mem_cons_self p rest)
    have hpf : fs.isFile p = true := by simp [FS.isFile, hf]
    unfold syncFiles
    rw [if_pos hpf]
    have hcopy := copy_branch_hashEq node now tol fs p (mirror src_root dest_root p)
      f g false hf hg hrf hrg hc
    unfold mirror at hcopy
    simp [hcopy, ih (fun p' hp' => hps p' (List.mem_cons_of_mem p hp'))]

/-- The push pass: mutations stay at the mirrors and their backup paths;
afterwards every enumerated file agrees with its mirror or the mirror is the
untouched clear winner; no file disappears; readability and disjoint trees
are preserved. -/
theorem syncFiles_push (node : String) (now tol : Int) (src_root dest_root : Path)
    (ps : List Path) (fs : FS) (s : SyncResult)
    (hind : indepRoots src_root dest_root)
    (hps : ∀ p ∈ ps, fs.isFile p = true ∧ strictUnder src_root p = true)
    (htag : ∀ p ∈ ps, ¬ (conflictTag (resolveHost node) now).data <:+ (p.getLastD "").data)
    (hok : syncFiles node now tol false src_root dest_root ps fs = .ok s) :
    (∀ q, (∀ p ∈ ps, q ≠ mirror src_root dest_root p ∧
        q ≠ conflictPath (mirror src_root dest_root p) (resolveHost node) now) →
      s.fs.findFile q = fs.findFile q) ∧
    (∀ p ∈ ps, MirrorAgree s.fs tol src_root dest_root p) ∧
    (∀ x, fs.isFile x = true → s.fs.isFile x = true) ∧
    (fs.allReadable → s.fs.allReadable) ∧
    (∀ R, (∀ x, strictUnder dest_root x = true → strictUnder R x = false) →
      s.fs.filesUnder R = fs.filesUnder R) := by
  induction ps generalizing fs s with
  | nil =>
    unfold syncFiles at hok
    cases hok
    exact ⟨fun q _ => rfl, fun p hp => absurd hp (List.not_mem_nil p), fun x hx => hx,
      fun h => h, fun R _ => rfl⟩
  | cons p rest ih =>
    obtain ⟨hpf, hpu⟩ := hps p (List.mem_cons_self p rest)
    have hdstu : strictUnder dest_root (mirror src_root dest_root p) = true :=
      mirror_strictUnder _ _ _ hpu
    have hcpu : strictUnder dest_root
        (conflictPath (mirror src_root dest_root p) (resolveHost node) now) = true :=
      strictUnder_conflictPath _ _ _ _ hdstu
    have hpnotd : strictUnder dest_root p = false := indep_not_under _ _ _ hind hpu
    have hsd : p ≠ mirror src_root dest_root p := by
      intro he
      rw [← he] at hdstu
      rw [hpnotd] at hdstu
      cases hdstu
    have hscp : p ≠ conflictPath (mirror src_root dest_root p) (resolveHost node) now := by
      intro he
      rw [← he] at hcpu
      rw [hpnotd] at hcpu
      cases hcpu
    unfold syncFiles at hok
    rw [if_pos hpf] at hok
    cases hcopy : copy_with_smart_conflict node now tol fs p
        (dest_root ++ p.drop src_root.length) false with
    | error e => simp only [hcopy] at hok; cases hok
    | ok r =>
      simp only [hcopy] at hok
      cases hsync : syncFiles node now tol false src_root dest_root rest r.fs with
      | error e => simp only [hsync] at hok; cases hok
      | ok s2 =>
        simp only [hsync] at hok
        cases hok
        obtain ⟨hS1, hS2, hS3, hS4, hS5⟩ :=
          copy_step_push node now tol fs p (dest_root ++ p.drop src_root.length) r
            hpf hsd hscp hcopy
        have hps' : ∀ p' ∈ rest, r.fs.isFile p' = true ∧ strictUnder src_root p' = true :=
          fun p' hp' => ⟨hS3 p' (hps p' (List.mem_cons_of_mem p hp')).1,
            (hps p' (List.mem_cons_of_mem p hp')).2⟩
        obtain ⟨iH1, iH2, iH3, iH4, iH5⟩ := ih r.fs s2 hps'
          (fun p' hp' => htag p' (List.mem_cons_of_mem p hp')) hsync
        have havoid : ∀ p'' ∈ rest, p ≠ mirror src_root dest_root p'' ∧
            p ≠ conflictPath (mirror src_root dest_root p'') (resolveHost node) now := by
          intro p'' hp''
          have hu'' := (hps p'' (List.mem_cons_of_mem p hp'')).2
          have h1 : strictUnder dest_root (mirror src_root dest_root p'') = true :=
            mirror_strictUnder _ _ _ hu''
          have h2 : strictUnder dest_root
              (conflictPath (mirror src_root dest_root p'') (resolveHost node) now) = true :=
            strictUnder_conflictPath _ _ _ _ h1
          constructor
          · intro he
            rw [← he] at h1
            rw [hpnotd] at h1
            cases h1
          · intro he
            rw [← he] at h2
            rw [hpnotd] at h2
            cases h2
        refine ⟨?_, ?_, ?_, ?_, ?_⟩
        · intro q hq
          have hq1 := hq p (List.mem_cons_self p rest)
          rw [iH1 q (fun p' hp' => hq p' (List.mem_cons_of_mem p hp'))]
          exact hS1 q hq1.1 hq1.2
        · intro p' hp'
          rcases List.mem_cons.mp hp' with heq | hp'r
          · subst heq
            by_cases hpr : p' ∈ rest
            · exact iH2 p' hpr
            · obtain ⟨f, g, hf, hg, hrf, hrg, hdisj⟩ := hS2
              have hmavoid : ∀ p'' ∈ rest,
                  mirror src_root dest_root p' ≠ mirror src_root dest_root p'' ∧
                  mirror src_root dest_root p' ≠
                    conflictPath (mirror src_root dest_root p'') (resolveHost node) now := by
                intro p'' hp''
                have hu'' := (hps p'' (List.mem_cons_of_mem p' hp'')).2
                constructor
                · intro he
                  exact hpr ((mirror_inj src_root dest_root p' p'' hpu hu'' he) ▸ hp'')
                · apply untagged_ne_conflictPath
                  rw [mirror_getLastD src_root dest_root p' hpu]
                  exact htag p' (List.mem_cons_self p' rest)
              refine ⟨f, g, ?_, ?_, hrf, hrg, ?_⟩
              · rw [iH1 p' havoid]
                exact hf
              · rw [iH1 (mirror src_root dest_root p') hmavoid]
                exact hg
              · rcases hdisj with h | ⟨h, _, _⟩
                · exact Or.inl h
                · exact Or.inr h
          · exact iH2 p' hp'r
        · exact fun x hx => iH3 x (hS3 x hx)
        · exact fun h => iH4 (hS4 h)
        · intro R hR
          rw [iH5 R hR, hS5 R (hR _ hdstu) (hR _ hcpu)]

/-- The pull pass over pairs that cannot conflict: the only paths written
are the mirrors themselves (no backups), and afterwards every enumerated
file agrees with its mirror or the mirror was left untouched as the clear
winner — with the untouched pair recorded against the pass's initial
state. -/
theorem syncFiles_pull (node : String) (now tol : Int) (src_root dest_root : Path)
    (qs : List Path) (fs : FS) (s : SyncResult)
    (hind : indepRoots src_root dest_root)
    (hqs : ∀ q ∈ qs, strictUnder src_root q = true ∧
      GoodPair fs tol q (mirror src_root dest_root q))
    (hok : syncFiles node now tol false src_root dest_root qs fs = .ok s) :
    (∀ x, (∀ q ∈ qs, x ≠ mirror src_root dest_root q) →
      s.fs.findFile x = fs.findFile x) ∧
    (∀ q ∈ qs, MirrorDone fs s.fs tol src_root dest_root q) ∧
    (∀ x, fs.isFile x = true → s.fs.isFile x = true) ∧
    (fs.allReadable → s.fs.allReadable) ∧
    (∀ R, (∀ x, strictUnder dest_root x = true → strictUnder R x = false) →
      s.fs.filesUnder R = fs.filesUnder R) := by
  induction qs generalizing fs s with
  | nil =>
    unfold syncFiles at hok
    cases hok
    exact ⟨fun x _ => rfl, fun q hq => absurd hq (List.not_mem_nil q), fun x hx => hx,
      fun h => h, fun R _ => rfl⟩
  | cons q rest ih =>
    obtain ⟨hqu, hgp⟩ := hqs q (List.mem_cons_self q rest)
    have hqf : fs.isFile q = true := by
      obtain ⟨f0, hf0, _⟩ := hgp
      simp [FS.isFile, hf0]
    have hdstu : strictUnder dest_root (mirror src_root dest_root q) = true :=
      mirror_strictUnder _ _ _ hqu
    have hqnotd : strictUnder dest_root q = false := indep_not_under _ _ _ hind hqu
    have hqm : q ≠ mirror src_root dest_root q := by
      intro he
      rw [← he] at hdstu
      rw [hqnotd] at hdstu
      cases hdstu
    unfold syncFiles at hok
    rw [if_pos hqf] at hok
    cases hcopy : copy_with_smart_conflict node now tol fs q
        (dest_root ++ q.drop src_root.length) false with
    | error e => simp only [hcopy] at hok; cases hok
    | ok r =>
      simp only [hcopy] at hok
      cases hsync : syncFiles node now tol false src_root dest_root rest r.fs with
      | error e => simp only [hsync] at hok; cases hok
      | ok s2 =>
        simp only [hsync] at hok
        cases hok
        obtain ⟨hS1, hS2, hS3, hS4, hS5⟩ :=
          copy_step_pull node now tol fs q (dest_root ++ q.drop src_root.length) r hgp hcopy
        have hmir : dest_root ++ q.drop src_root.length = mirror src_root dest_root q := rfl
        rw [hmir] at hS1 hS2 hS5
        have havoid : ∀ q'' ∈ rest, q ≠ mirror src_root dest_root q'' := by
          intro q'' hq'' he
          have h1 : strictUnder dest_root (mirror src_root dest_root q'') = true :=
            mirror_strictUnder _ _ _ (hqs q'' (List.mem_cons_of_mem q hq'')).1
          rw [← he] at h1
          rw [hqnotd] at h1
          cases h1
        have hqs' : ∀ q' ∈ rest, strictUnder src_root q' = true ∧
            GoodPair r.fs tol q' (mirror src_root dest_root q') := by
          intro q' hq'
          obtain ⟨hq'u, ⟨f0, hf0, hrf0, hrest0⟩⟩ := hqs q' (List.mem_cons_of_mem q hq')
          have hq'notd : strictUnder dest_root q' = false := indep_not_under _ _ _ hind hq'u
          have hq'ne : q' ≠ mirror src_root dest_root q := by
            intro he
            rw [← he] at hdstu
            rw [hq'notd] at hdstu
            cases hdstu
          refine ⟨hq'u, ?_⟩
          by_cases heq : q' = q
          · subst heq
            obtain ⟨f, g, hf, hg, hrf, hrg, hdisj⟩ := hS2
            refine ⟨f, hf, hrf, Or.inr ⟨g, hg, hrg, ?_⟩⟩
            rcases hdisj with h | ⟨h, _, _⟩
            · exact Or.inl h
            · refine Or.inr ?_
              rw [h]
              intro habs
              cases habs
          · have hmne : mirror src_root dest_root q' ≠ mirror src_root dest_root q :=
              fun he => heq (mirror_inj src_root dest_root q' q hq'u hqu he)
            have hq'un : r.fs.findFile q' = fs.findFile q' := hS1 q' hq'ne
            have hmun : r.fs.findFile (mirror src_root dest_root q') =
                fs.findFile (mirror src_root dest_root q') := hS1 _ hmne
            refine ⟨f0, by rw [hq'un]; exact hf0, hrf0, ?_⟩
            rcases hrest0 with h1 | ⟨g0, hg0, hrg0, h2⟩
            · exact Or.inl (by rw [FS.isFile, hmun]; exact h1)
            · exact Or.inr ⟨g0, by rw [hmun]; exact hg0, hrg0, h2⟩
        obtain ⟨iH1, iH2, iH3, iH4, iH5⟩ := ih r.fs s2 hqs' hsync
        refine ⟨?_, ?_, ?_, ?_, ?_⟩
        · intro x hx
          rw [iH1 x (fun q' hq' => hx q' (List.mem_cons_of_mem q hq'))]
          exact hS1 x (hx q (List.mem_cons_self q rest))
        · intro q' hq'
          rcases List.mem_cons.mp hq' with heq | hq'r
          · subst heq
            by_cases hqr : q' ∈ rest
            · -- processed again later: combine the step's input relation with
              -- the tail's final facts
              obtain ⟨f, g, hf, hg, hrf, hrg, hdone⟩ := iH2 q' hqr
              obtain ⟨f1, g1, hf1, hg1, _, _, hdisj1⟩ := hS2
              rcases hdone with hdone | ⟨harb, hfr, hgr⟩
              · exact ⟨f, g, hf, hg, hrf, hrg, Or.inl hdone⟩
              · rw [hf1] at hfr
                injection hfr with hfr
                rw [hg1] at hgr
                injection hgr with hgr
                rcases hdisj1 with hEq | ⟨harb1, hf0, hg0⟩
                · exact ⟨f, g, hf, hg, hrf, hrg, Or.inl (by rw [← hfr, ← hgr]; exact hEq)⟩
                · exact ⟨f, g, hf, hg, hrf, hrg,
                    Or.inr ⟨harb, by rw [← hfr]; exact hf0, by rw [← hgr]; exact hg0⟩⟩
            · obtain ⟨f, g, hf, hg, hrf, hrg, hdisj⟩ := hS2
              have hmavoid : ∀ q'' ∈ rest,
                  mirror src_root dest_root q' ≠ mirror src_root dest_root q'' := by
                intro q'' hq'' he
                exact hqr ((mirror_inj src_root dest_root q' q''
                  hqu (hqs q'' (List.mem_cons_of_mem q' hq'')).1 he) ▸ hq'')
              refine ⟨f, g, ?_, ?_, hrf, hrg, ?_⟩
              · rw [iH1 q' havoid]
                exact hf
              · rw [iH1 (mirror src_root dest_root q') hmavoid]
                exact hg
              · rcases hdisj with h | ⟨h, hf0, hg0⟩
                · exact Or.inl h
                · exact Or.inr ⟨h, hf0, hg0⟩
          · -- tail member: downgrade the tail's initial state to ours
            obtain ⟨f, g, hf, hg, hrf, hrg, hdone⟩ := iH2 q' hq'r
            rcases hdone with hdone | ⟨harb, hfr, hgr⟩
            · exact ⟨f, g, hf, hg, hrf, hrg, Or.inl hdone⟩
            · obtain ⟨hq'u, _⟩ := hqs q' (List.mem_cons_of_mem q hq'r)
              have hq'notd : strictUnder dest_root q' = false :=
                indep_not_under _ _ _ hind hq'u
              have hq'ne : q' ≠ mirror src_root dest_root q := by
                intro he
                rw [← he] at hdstu
                rw [hq'notd] at hdstu
                cases hdstu
              by_cases heq : q' = q
              · -- the pair was written by the head step or untouched; combine
                subst heq
                obtain ⟨f1, g1, hf1, hg1, _, _, hdisj1⟩ := hS2
                rw [hf1] at hfr
                injection hfr with hfr
                rw [hg1] at hgr
                injection hgr with hgr
                rcases hdisj1 with hEq | ⟨harb1, hf0, hg0⟩
                · exact ⟨f, g, hf, hg, hrf, hrg, Or.inl (by rw [← hfr, ← hgr]; exact hEq)⟩
                · exact ⟨f, g, hf, hg, hrf, hrg,
                    Or.inr ⟨harb, by rw [← hfr]; exact hf0, by rw [← hgr]; exact hg0⟩⟩
              · have hmne : mirror src_root dest_root q' ≠ mirror src_root dest_root q :=
                  fun he => heq (mirror_inj src_root dest_root q' q hq'u hqu he)
                refine ⟨f, g, hf, hg, hrf, hrg, Or.inr ⟨harb, ?_, ?_⟩⟩
                · rw [← hS1 q' hq'ne]
                  exact hfr
                · rw [← hS1 _ hmne]
                  exact hgr
        · exact fun x hx => iH3 x (hS3 x hx)
        · exact fun h => iH4 (hS4 h)
        · intro R hR
          rw [iH5 R hR, hS5 R (hR _ hdstu)]

/-! ### Directory bookkeeping: monotonicity and well-formedness -/

theorem wfDirs_mkdirParents (fs : FS) (p : Path) (h : fs.wfDirs) :
    (fs.mkdirParents p).wfDirs := by
  intro q hq k hk
  exact dirs_mono_mkdirParents fs p _ (h q hq k hk)

theorem take_prefix_take_of_lt (p : Path) (k : Nat) (hk : k < p.length) :
    p.take k = p.dropLast.take k := by
  rw [List.dropLast_eq_take, List.take_take]
  congr 1
  omega

theorem wfDirs_writeFile_after_mkdir (fs : FS) (dst : Path) (f : File)
    (h : fs.wfDirs)
    (hd : ∀ k, k < dst.length → dst.take k ∈ fs.dirs) :
    (fs.writeFile dst f).wfDirs := by
  intro q hq k hk
  have hdirs : (fs.writeFile dst f).dirs = fs.dirs := by
    unfold FS.writeFile
    by_cases hp : fs.isFile dst
    · rw [if_pos hp]
    · rw [if_neg hp]
  rw [hdirs]
  have hfp := filePaths_writeFile fs dst f
  rw [hfp] at hq
  by_cases hp : fs.isFile dst
  · rw [if_pos hp] at hq
    exact h q hq k hk
  · rw [if_neg hp] at hq
    rcases List.mem_append.mp hq with h1 | h1
    · exact h q h1 k hk
    · simp only [List.mem_singleton] at h1
      subst h1
      exact hd k hk

theorem dirs_writeFile (fs : FS) (p : Path) (f : File) :
    (fs.writeFile p f).dirs = fs.dirs := by
  unfold FS.writeFile
  by_cases hp : fs.isFile p
  · rw [if_pos hp]
  · rw [if_neg hp]

theorem prefix_mem_dirs_double_mkdir (fs : FS) (dst : Path) (k : Nat)
    (hk : k < dst.length) :
    dst.take k ∈ (fs.mkdirParents dst.dropLast).dirs := by
  rw [take_prefix_take_of_lt dst k hk]
  apply take_mem_dirs_mkdirParents
  rw [List.length_dropLast]
  omega

/-- A successful reconciliation only grows the directory set and preserves
well-formedness of the file/directory structure. -/
theorem copy_wf_mono (node : String) (now tol : Int) (fs : FS)
    (src dst : Path) (dry : Bool) (r : CopyResult)
    (hok : copy_with_smart_conflict node now tol fs src dst dry = .ok r) :
    (∀ d ∈ fs.dirs, d ∈ r.fs.dirs) ∧ (fs.wfDirs → r.fs.wfDirs) := by
  refine copy_total node now tol fs src dst dry
    (fun res => ∀ r', res = .ok r' →
      (∀ d ∈ fs.dirs, d ∈ r'.fs.dirs) ∧ (fs.wfDirs → r'.fs.wfDirs))
    ?_ ?_ ?_ ?_ ?_ ?_ ?_ ?_ ?_ ?_ ?_ ?_ r hok
  · intro _ r' hr'
    cases hr'
    exact ⟨fun d hd => hd, fun h => h⟩
  · intro f _ _ _ r' hr'
    cases hr'
    exact ⟨fun d hd => hd, fun h => h⟩
  · intro f _ _ _ _ r' hr'
    cases hr'
    refine ⟨?_, ?_⟩
    · intro d hd
      rw [dirs_writeFile]
      exact dirs_mono_mkdirParents _ _ _ (dirs_mono_mkdirParents _ _ _ hd)
    · intro h
      refine wfDirs_writeFile_after_mkdir _ dst _ ?_ ?_
      · exact wfDirs_mkdirParents _ _ (wfDirs_mkdirParents _ _ h)
      · intro k hk
        exact dirs_mono_mkdirParents _ _ _ (prefix_mem_dirs_double_mkdir fs dst k hk)
  · intro f _ _ _ _ r' hr'
    exact (nomatch hr')
  · intro f _ _ _ r' hr'
    exact (nomatch hr')
  · intro f _ _ _ _ r' hr'
    exact (nomatch hr')
  · intro f g _ _ _ _ _ r' hr'
    cases hr'
    exact ⟨fun d hd => hd, fun h => h⟩
  · intro f g _ _ _ _ _ _ _ r' hr'
    cases hr'
    exact ⟨fun d hd => hd, fun h => h⟩
  · intro f g _ _ _ _ _ _ _ r' hr'
    cases hr'
    refine ⟨?_, ?_⟩
    · intro d hd
      rw [dirs_writeFile]
      exact dirs_mono_mkdirParents _ _ _ (dirs_mono_mkdirParents _ _ _ hd)
    · intro h
      refine wfDirs_writeFile_after_mkdir _ dst _ ?_ ?_
      · exact wfDirs_mkdirParents _ _ (wfDirs_mkdirParents _ _ h)
      · intro k hk
        exact dirs_mono_mkdirParents _ _ _ (prefix_mem_dirs_double_mkdir fs dst k hk)
  · intro f g _ _ _ _ _ _ r' hr'
    cases hr'
    exact ⟨fun d hd => hd, fun h => h⟩
  · intro f g _ _ _ _ _ _ _ r' hr'
    cases hr'
    exact ⟨fun d hd => hd, fun h => h⟩
  · intro f g h0 _ _ _ _ _ _ _ _ r' hr'
    cases hr'
    have hcpd : (conflictPath dst (resolveHost node) now).dropLast = dst.dropLast :=
      conflictPath_dropLast dst (resolveHost node) now
    refine ⟨?_, ?_⟩
    · intro d hd
      rw [dirs_writeFile]
      apply dirs_mono_mkdirParents
      rw [dirs_writeFile]
      exact dirs_mono_mkdirParents _ _ _ (dirs_mono_mkdirParents _ _ _ hd)
    · intro h
      refine wfDirs_writeFile_after_mkdir _ dst _ ?_ ?_
      · apply wfDirs_mkdirParents
        refine wfDirs_writeFile_after_mkdir _ (conflictPath dst (resolveHost node) now) _ ?_ ?_
        · exact wfDirs_mkdirParents _ _ (wfDirs_mkdirParents _ _ h)
        · intro k hk
          have hk' : k < (conflictPath dst (resolveHost node) now).length := hk
          rw [take_prefix_take_of_lt _ k hk', hcpd]
          apply dirs_mono_mkdirParents
          apply take_mem_dirs_mkdirParents
          rw [List.length_dropLast]
          unfold conflictPath at hk'
          rw [List.length_append, List.length_dropLast, List.length_singleton] at hk'
          omega
      · intro k hk
        rw [take_prefix_take_of_lt dst k hk]
        apply take_mem_dirs_mkdirParents
        rw [List.length_dropLast]
        omega

theorem syncFiles_wf_mono (node : String) (now tol : Int) (dry : Bool)
    (src_root dest_root : Path) (ps : List Path) (fs : FS) (s : SyncResult)
    (hok : syncFiles node now tol dry src_root dest_root ps fs = .ok s) :
    (∀ d ∈ fs.dirs, d ∈ s.fs.dirs) ∧ (fs.wfDirs → s.fs.wfDirs) := by
  induction ps generalizing fs s with
  | nil =>
    unfold syncFiles at hok
    cases hok
    exact ⟨fun d hd => hd, fun h => h⟩
  | cons p rest ih =>
    unfold syncFiles at hok
    by_cases hpf : fs.isFile p = true
    · rw [if_pos hpf] at hok
      cases hcopy : copy_with_smart_conflict node now tol fs p
          (dest_root ++ p.drop src_root.length) dry with
      | error e => simp only [hcopy] at hok; cases hok
      | ok r =>
        simp only [hcopy] at hok
        cases hsync : syncFiles node now tol dry src_root dest_root rest r.fs with
        | error e => simp only [hsync] at hok; cases hok
        | ok s2 =>
          simp only [hsync] at hok
          cases hok
          obtain ⟨h1, h2⟩ := copy_wf_mono node now tol fs p
            (dest_root ++ p.drop src_root.length) dry r hcopy
          obtain ⟨h3, h4⟩ := ih r.fs s2 hsync
          exact ⟨fun d hd => h3 d (h1 d hd), fun h => h4 (h2 h)⟩
    · rw [if_neg hpf] at hok
      exact ih fs s hok

theorem syncDirection_wf_mono (node : String) (now tol : Int) (header : String)
    (src_root dest_root : Path) (fs : FS) (s : SyncResult) (dry : Bool)
    (hok : syncDirection node now tol header src_root dest_root fs dry = .ok s) :
    (∀ d ∈ fs.dirs, d ∈ s.fs.dirs) ∧ (fs.wfDirs → s.fs.wfDirs) := by
  unfold syncDirection at hok
  by_cases hd : fs.isDir src_root = true
  · rw [if_neg (by simp [hd])] at hok
    cases hsync : syncFiles node now tol dry src_root dest_root (fs.filesUnder src_root) fs with
    | error e => simp only [hsync] at hok; cases hok
    | ok s2 =>
      simp only [hsync] at hok
      cases hok
      exact syncFiles_wf_mono node now tol dry src_root dest_root _ fs s2 hsync
  · rw [if_pos (by simpa using hd)] at hok
    cases hok
    exact ⟨fun d hd => hd, fun h => h⟩

theorem indep_extend (a c : Path) (n : String) (h : indepRoots a c) :
    indepRoots a (c ++ [n]) := by
  constructor
  · intro hpre
    rw [List.isPrefixOf_iff_prefix] at hpre
    by_cases hac : a.length ≤ c.length
    · apply h.1
      rw [List.isPrefixOf_iff_prefix]
      have h1 : a = (c ++ [n]).take a.length := List.prefix_iff_eq_take.mp hpre
      rw [List.take_append_of_le_length hac] at h1
      rw [h1]
      exact List.take_prefix _ _
    · have hlen : a.length ≤ (c ++ [n]).length := hpre.length_le
      rw [List.length_append, List.length_singleton] at hlen
      have heq : a = c ++ [n] := hpre.eq_of_length (by
        rw [List.length_append, List.length_singleton]
        omega)
      apply h.2
      rw [List.isPrefixOf_iff_prefix, heq]
      exact ⟨[n], rfl⟩
  · intro hpre
    rw [List.isPrefixOf_iff_prefix] at hpre
    apply h.2
    rw [List.isPrefixOf_iff_prefix]
    exact List.IsPrefix.trans (⟨[n], rfl⟩ : c <+: c ++ [n]) hpre

theorem findFile_none_of_not_isFile (fs : FS) (p : Path)
    (h : fs.isFile p = false) : fs.findFile p = none := by
  unfold FS.isFile at h
  cases hf : fs.findFile p with
  | none => rfl
  | some f => rw [hf] at h; cases h

theorem isFile_of_findFile (fs : FS) (p : Path) (f : File)
    (h : fs.findFile p = some f) : fs.isFile p = true := by
  simp [FS.isFile, h]

theorem readable_of_findFile (fs : FS) (p : Path) (f : File)
    (hall : fs.allReadable) (h : fs.findFile p = some f) : f.readable = true := by
  unfold FS.findFile at h
  cases hfind : fs.files.find? (fun e => e.1 = p) with
  | none => rw [hfind] at h; cases h
  | some e =>
    rw [hfind] at h
    injection h with h
    rw [← h]
    exact hall e (List.mem_of_find?_eq_some hfind)

theorem exists_findFile_of_mem_filePaths (fs : FS) (p : Path)
    (h : p ∈ fs.filePaths) : ∃ f, fs.findFile p = some f := by
  have := (isFile_iff_mem_filePaths fs p).mpr h
  unfold FS.isFile at this
  exact Option.isSome_iff_exists.mp this

theorem take_root_of_strictUnder (root p : Path) (h : strictUnder root p = true) :
    p.take root.length = root := by
  unfold strictUnder at h
  rw [Bool.and_eq_true, List.isPrefixOf_iff_prefix] at h
  exact (List.prefix_iff_eq_take.mp h.1).symm

/-- In a well-formed state, a root that is not a directory has no files
strictly below it. -/
theorem no_files_of_not_isDir (fs : FS) (root : Path)
    (hwf : fs.wfDirs) (hd : fs.isDir root = false) :
    ∀ p, strictUnder root p = true → fs.isFile p = false := by
  intro p hu
  by_contra hf
  rw [Bool.not_eq_false] at hf
  have hmem := (isFile_iff_mem_filePaths fs p).mp hf
  have hlen : root.length < p.length := by
    unfold strictUnder at hu
    rw [Bool.and_eq_true, decide_eq_true_eq] at hu
    exact hu.2
  have := hwf p hmem root.length hlen
  rw [take_root_of_strictUnder root p hu] at this
  rw [FS.isDir] at hd
  have : fs.dirs.contains root = true := by
    rw [List.contains_iff_exists_mem_beq]
    exact ⟨root, this, by simp⟩
  rw [this] at hd
  cases hd

theorem under_ne_of_indep (a b x y : Path) (hind : indepRoots a b)
    (hx : strictUnder a x = true) (hy : strictUnder b y = true) : x ≠ y := by
  intro he
  have h1 := indep_not_under a b x hind hx
  rw [he] at h1
  rw [hy] at h1
  cases h1

/-- Break a successful `syncDirection` into its two shapes. -/
theorem syncDirection_cases (node : String) (now tol : Int) (header : String)
    (src_root dest_root : Path) (fs : FS) (dry : Bool) (s : SyncResult)
    (hok : syncDirection node now tol header src_root dest_root fs dry = .ok s) :
    (fs.isDir src_root = false ∧ s.fs = fs ∧ s.copied = 0) ∨
    (fs.isDir src_root = true ∧
      ∃ s2, syncFiles node now tol dry src_root dest_root (fs.filesUnder src_root) fs = .ok s2 ∧
        s.fs = s2.fs ∧ s.copied = s2.copied) := by
  unfold syncDirection at hok
  by_cases hd : fs.isDir src_root = true
  · rw [if_neg (by simp [hd])] at hok
    cases hsync : syncFiles node now tol dry src_root dest_root (fs.filesUnder src_root) fs with
    | error e => simp only [hsync] at hok; cases hok
    | ok s2 =>
      simp only [hsync] at hok
      cases hok
      exact Or.inr ⟨hd, s2, rfl, rfl, rfl⟩
  · rw [if_pos (by simpa using hd)] at hok
    cases hok
    exact Or.inl ⟨by simpa using hd, rfl, rfl⟩

/-- One push-then-pull cycle for a single source leaves the local tree and
its central subtree with identical content, touches nothing outside those
two trees, and preserves readability and well-formedness. -/
theorem source_roundtrip (node : String) (now tol : Int) (S : SaveSource)
    (central : Path) (fs : FS) (r1 r2 : SyncResult)
    (htol : 0 ≤ tol)
    (hind : indepRoots S.path (central ++ [S.name]))
    (hwf : fs.wfDirs) (hread : fs.allReadable)
    (htag : ∀ p ∈ fs.filesUnder S.path,
      ¬ (conflictTag (resolveHost node) now).data <:+ (p.getLastD "").data)
    (h1 : sync_source_to_central node now tol S central fs false = .ok r1)
    (h2 : sync_central_to_source node now tol S central r1.fs false = .ok r2) :
    TreesEq r2.fs S.path (central ++ [S.name]) ∧
    (∀ q, strictUnder S.path q = false → strictUnder (central ++ [S.name]) q = false →
      r2.fs.findFile q = fs.findFile q) ∧
    r2.fs.allReadable ∧ r2.fs.wfDirs ∧
    (∀ d ∈ fs.dirs, d ∈ r2.fs.dirs) ∧
    (∀ R, (∀ x, strictUnder S.path x = true → strictUnder R x = false) →
      (∀ x, strictUnder (central ++ [S.name]) x = true → strictUnder R x = false) →
      r2.fs.filesUnder R = fs.filesUnder R) := by
  have hindBA : indepRoots (central ++ [S.name]) S.path := ⟨hind.2, hind.1⟩
  obtain ⟨hdm1, hwf1⟩ := syncDirection_wf_mono node now tol _ S.path (central ++ [S.name])
    fs r1 false h1
  obtain ⟨hdm2, hwf2⟩ := syncDirection_wf_mono node now tol _ (central ++ [S.name]) S.path
    r1.fs r2 false h2
  rcases syncDirection_cases node now tol _ S.path (central ++ [S.name]) fs false r1 h1 with
    ⟨hA, hfs1, _⟩ | ⟨hA, s1', hsf1, hfs1, _⟩
  · -- push skipped: the local root is not a directory, hence no local files
    have hnofileA : ∀ p, strictUnder S.path p = true → fs.isFile p = false :=
      no_files_of_not_isDir fs S.path hwf hA
    rcases syncDirection_cases node now tol _ (central ++ [S.name]) S.path r1.fs false r2 h2 with
      ⟨hB, hfs2, _⟩ | ⟨hB, s2', hsf2, hfs2, _⟩
    · -- pull also skipped: both trees are empty of files
      rw [hfs1] at hB hfs2
      have hnofileB : ∀ q, strictUnder (central ++ [S.name]) q = true → fs.isFile q = false :=
        no_files_of_not_isDir fs (central ++ [S.name]) hwf hB
      rw [hfs2]
      refine ⟨?_, fun q _ _ => rfl, hread, hwf, fun d hd => hd, fun R _ _ => rfl⟩
      intro rel hrel
      unfold FS.contentAt
      rw [findFile_none_of_not_isFile fs _ (hnofileA _ (strictUnder_append _ rel hrel)),
        findFile_none_of_not_isFile fs _ (hnofileB _ (strictUnder_append _ rel hrel))]
    · -- pull ran over the central tree; every pair is fresh on the local side
      rw [hfs1] at hB hsf2
      have hqs : ∀ q ∈ fs.filesUnder (central ++ [S.name]),
          strictUnder (central ++ [S.name]) q = true ∧
          GoodPair fs tol q (mirror (central ++ [S.name]) S.path q) := by
        intro q hq
        obtain ⟨hqm, hqu⟩ := (mem_filesUnder_iff fs (central ++ [S.name]) q).mp hq
        obtain ⟨f, hf⟩ := exists_findFile_of_mem_filePaths fs q hqm
        refine ⟨hqu, f, hf, readable_of_findFile fs q f hread hf, Or.inl ?_⟩
        exact hnofileA _ (mirror_strictUnder _ _ _ hqu)
      obtain ⟨qF1, qF2, qF3, qF4, qF5⟩ := syncFiles_pull node now tol
        (central ++ [S.name]) S.path (fs.filesUnder (central ++ [S.name])) fs s2'
        hindBA hqs hsf2
      rw [hfs2]
      refine ⟨?_, ?_, qF4 hread,
        (by rw [← hfs2]; exact hwf2 (by rw [hfs1]; exact hwf)), ?_, ?_⟩
      · intro rel hrel
        have hqu : strictUnder (central ++ [S.name]) (central ++ [S.name] ++ rel) = true :=
          strictUnder_append _ rel hrel
        have hmirq : mirror (central ++ [S.name]) S.path (central ++ [S.name] ++ rel) =
            S.path ++ rel := mirror_append _ _ _
        by_cases hqf : fs.isFile (central ++ [S.name] ++ rel) = true
        · have hqmem : (central ++ [S.name] ++ rel) ∈ fs.filesUnder (central ++ [S.name]) :=
            (mem_filesUnder_iff _ _ _).mpr ⟨(isFile_iff_mem_filePaths _ _).mp hqf, hqu⟩
          obtain ⟨f, g, hfq, hgp, _, _, hdisj⟩ := qF2 _ hqmem
          rw [hmirq] at hgp
          rcases hdisj with heq | ⟨_, _, hg0⟩
          · unfold FS.contentAt
            rw [hfq, hgp]
            simp [heq]
          · rw [hmirq] at hg0
            have := hnofileA _ (strictUnder_append _ rel hrel)
            rw [findFile_none_of_not_isFile fs _ this] at hg0
            cases hg0
        · have havp : ∀ q' ∈ fs.filesUnder (central ++ [S.name]),
              (S.path ++ rel) ≠ mirror (central ++ [S.name]) S.path q' := by
            intro q' hq' he
            obtain ⟨hq'm, hq'u⟩ := (mem_filesUnder_iff _ _ _).mp hq'
            have : q' = central ++ [S.name] ++ rel := by
              have h1 := mirror_inj (central ++ [S.name]) S.path q'
                (central ++ [S.name] ++ rel) hq'u hqu (by rw [← he, hmirq])
              exact h1
            rw [this] at hq'm
            exact (by rw [(isFile_iff_mem_filePaths _ _).mpr hq'm] at hqf; exact hqf rfl)
          have havq : ∀ q' ∈ fs.filesUnder (central ++ [S.name]),
              (central ++ [S.name] ++ rel) ≠ mirror (central ++ [S.name]) S.path q' := by
            intro q' hq'
            obtain ⟨_, hq'u⟩ := (mem_filesUnder_iff _ _ _).mp hq'
            exact under_ne_of_indep _ _ _ _ hindBA hqu (mirror_strictUnder _ _ _ hq'u)
          unfold FS.contentAt
          rw [qF1 _ havp, qF1 _ havq,
            findFile_none_of_not_isFile fs _ (hnofileA _ (strictUnder_append _ rel hrel)),
            findFile_none_of_not_isFile fs _ (by simpa using hqf)]
      · intro q hqa hqb
        apply qF1
        intro q' hq'
        obtain ⟨_, hq'u⟩ := (mem_filesUnder_iff _ _ _).mp hq'
        intro he
        have := mirror_strictUnder (central ++ [S.name]) S.path q' hq'u
        rw [← he] at this
        rw [hqa] at this
        cases this
      · intro d hd
        have := hdm2 d (by rw [hfs1]; exact hd)
        rw [hfs2] at this
        exact this
      · intro R hRA hRB
        apply qF5
        intro x hx
        exact hRA x hx
  · -- push ran
    obtain ⟨hpsF, hpsU⟩ : (∀ p ∈ fs.filesUnder S.path, fs.isFile p = true) ∧
        (∀ p ∈ fs.filesUnder S.path, strictUnder S.path p = true) := by
      constructor
      · intro p hp
        exact (isFile_iff_mem_filePaths _ _).mpr ((mem_filesUnder_iff _ _ _).mp hp).1
      · intro p hp
        exact ((mem_filesUnder_iff _ _ _).mp hp).2
    obtain ⟨pF1, pF2, pF3, pF4, pF5⟩ := syncFiles_push node now tol
      S.path (central ++ [S.name]) (fs.filesUnder S.path) fs s1' hind
      (fun p hp => ⟨hpsF p hp, hpsU p hp⟩) htag hsf1
    rw [← hfs1] at pF1 pF2 pF3 pF4 pF5
    -- the local tree is untouched by the push
    have hlocstat : ∀ x, strictUnder S.path x = true →
        r1.fs.findFile x = fs.findFile x := by
      intro x hx
      apply pF1
      intro p hp
      constructor
      · exact under_ne_of_indep _ _ _ _ hind hx
          (mirror_strictUnder _ _ _ (hpsU p hp))
      · exact under_ne_of_indep _ _ _ _ hind hx
          (strictUnder_conflictPath _ _ _ _ (mirror_strictUnder _ _ _ (hpsU p hp)))
    have hwfr1 : r1.fs.wfDirs := hwf1 hwf
    have hreadr1 : r1.fs.allReadable := pF4 hread
    rcases syncDirection_cases node now tol _ (central ++ [S.name]) S.path r1.fs false r2 h2 with
      ⟨hB, hfs2, _⟩ | ⟨hB, s2', hsf2, hfs2, _⟩
    · -- pull skipped: then the push copied nothing either (no files at all)
      have hnofileB : ∀ q, strictUnder (central ++ [S.name]) q = true →
          r1.fs.isFile q = false :=
        no_files_of_not_isDir r1.fs (central ++ [S.name]) hwfr1 hB
      have hnofileA : ∀ p, strictUnder S.path p = true → fs.isFile p = false := by
        intro p hp
        by_contra hf
        rw [Bool.not_eq_false] at hf
        have hmem : p ∈ fs.filesUnder S.path :=
          (mem_filesUnder_iff _ _ _).mpr ⟨(isFile_iff_mem_filePaths _ _).mp hf, hp⟩
        obtain ⟨f, g, _, hg, _, _, _⟩ := pF2 p hmem
        have := hnofileB _ (mirror_strictUnder _ _ _ hp)
        rw [findFile_none_of_not_isFile r1.fs _ this] at hg
        cases hg
      rw [hfs2]
      refine ⟨?_, ?_, hreadr1, hwfr1, ?_, ?_⟩
      · intro rel hrel
        unfold FS.contentAt
        rw [hlocstat _ (strictUnder_append _ rel hrel),
          findFile_none_of_not_isFile fs _ (hnofileA _ (strictUnder_append _ rel hrel)),
          findFile_none_of_not_isFile r1.fs _
            (hnofileB _ (strictUnder_append _ rel hrel))]
      · intro q hqa hqb
        apply pF1
        intro p hp
        constructor
        · intro he
          have := mirror_strictUnder S.path (central ++ [S.name]) p (hpsU p hp)
          rw [← he] at this
          rw [hqb] at this
          cases this
        · intro he
          have := strictUnder_conflictPath (central ++ [S.name])
              (mirror S.path (central ++ [S.name]) p) (resolveHost node) now
            (mirror_strictUnder S.path (central ++ [S.name]) p (hpsU p hp))
          rw [← he] at this
          rw [hqb] at this
          cases this
      · exact fun d hd => hdm1 d hd
      · intro R hRA hRB
        apply pF5
        intro x hx
        exact hRB x hx
    · -- pull ran: derive the no-conflict precondition from the push outcome
      have hmemps : ∀ p, strictUnder S.path p = true → r1.fs.isFile p = true →
          p ∈ fs.filesUnder S.path := by
        intro p hp hf
        rw [FS.isFile, hlocstat p hp] at hf
        exact (mem_filesUnder_iff _ _ _).mpr ⟨(isFile_iff_mem_filePaths _ _).mp hf, hp⟩
      have hqs : ∀ q ∈ r1.fs.filesUnder (central ++ [S.name]),
          strictUnder (central ++ [S.name]) q = true ∧
          GoodPair r1.fs tol q (mirror (central ++ [S.name]) S.path q) := by
        intro q hq
        obtain ⟨hqm, hqu⟩ := (mem_filesUnder_iff _ _ _).mp hq
        obtain ⟨fq, hfq⟩ := exists_findFile_of_mem_filePaths r1.fs q hqm
        refine ⟨hqu, fq, hfq, readable_of_findFile r1.fs q fq hreadr1 hfq, ?_⟩
        by_cases hp : r1.fs.isFile (mirror (central ++ [S.name]) S.path q) = true
        · refine Or.inr ?_
          have hpu : strictUnder S.path (mirror (central ++ [S.name]) S.path q) = true :=
            mirror_strictUnder _ _ _ hqu
          have hpmem := hmemps _ hpu hp
          obtain ⟨f', g', hf', hg', hrf', hrg', hdisj'⟩ := pF2 _ hpmem
          rw [mirror_mirror (central ++ [S.name]) S.path q hqu] at hg'
          rw [hg'] at hfq
          injection hfq with hfq
          refine ⟨f', hf', hrf', ?_⟩
          rcases hdisj' with heq | harb
          · exact Or.inl (by rw [← hfq, heq])
          · refine Or.inr ?_
            rw [← hfq]
            have := arbiter_dstNewer_flip _ tol htol harb
            rw [show -(f'.mtime - g'.mtime) = g'.mtime - f'.mtime by ring] at this
            rw [this]
            intro habs
            cases habs
        · exact Or.inl (by simpa using hp)
      obtain ⟨qF1, qF2, qF3, qF4, qF5⟩ := syncFiles_pull node now tol
        (central ++ [S.name]) S.path (r1.fs.filesUnder (central ++ [S.name])) r1.fs s2'
        hindBA hqs hsf2
      rw [← hfs2] at qF1 qF2 qF3 qF4 qF5
      refine ⟨?_, ?_, qF4 hreadr1, hwf2 hwfr1, ?_, ?_⟩
      · intro rel hrel
        have hqu : strictUnder (central ++ [S.name]) (central ++ [S.name] ++ rel) = true :=
          strictUnder_append _ rel hrel
        have hpu : strictUnder S.path (S.path ++ rel) = true :=
          strictUnder_append _ rel hrel
        have hmirq : mirror (central ++ [S.name]) S.path (central ++ [S.name] ++ rel) =
            S.path ++ rel := mirror_append _ _ _
        by_cases hqf : r1.fs.isFile (central ++ [S.name] ++ rel) = true
        · have hqmem : (central ++ [S.name] ++ rel) ∈
              r1.fs.filesUnder (central ++ [S.name]) :=
            (mem_filesUnder_iff _ _ _).mpr ⟨(isFile_iff_mem_filePaths _ _).mp hqf, hqu⟩
          obtain ⟨f, g, hfq, hgp, _, _, hdisj⟩ := qF2 _ hqmem
          rw [hmirq] at hgp
          rcases hdisj with heq | ⟨harb, hf0, hg0⟩
          · unfold FS.contentAt
            rw [hfq, hgp]
            simp [heq]
          · rw [hmirq] at hg0
            have hpmem := hmemps _ hpu (isFile_of_findFile r1.fs _ g hg0)
            obtain ⟨f', g', hf', hg', _, _, hdisj'⟩ := pF2 _ hpmem
            rw [mirror_append] at hg'
            rw [hf'] at hg0
            injection hg0 with hg0
            rw [hg'] at hf0
            injection hf0 with hf0
            rcases hdisj' with heq' | harb'
            · unfold FS.contentAt
              rw [hfq, hgp]
              rw [hg0, hf0] at heq'
              simp [heq']
            · exfalso
              rw [hg0, hf0] at harb'
              have := arbiter_dstNewer_flip _ tol htol harb
              rw [show -(f.mtime - g.mtime) = g.mtime - f.mtime by ring] at this
              rw [this] at harb'
              cases harb'
        · have havp : ∀ q' ∈ r1.fs.filesUnder (central ++ [S.name]),
              (S.path ++ rel) ≠ mirror (central ++ [S.name]) S.path q' := by
            intro q' hq' he
            obtain ⟨hq'm, hq'u⟩ := (mem_filesUnder_iff _ _ _).mp hq'
            have hq'eq : q' = central ++ [S.name] ++ rel :=
              mirror_inj (central ++ [S.name]) S.path q' (central ++ [S.name] ++ rel)
                hq'u hqu (by rw [← he, hmirq])
            rw [hq'eq] at hq'm
            rw [(isFile_iff_mem_filePaths _ _).mpr hq'm] at hqf
            exact hqf rfl
          have havq : ∀ q' ∈ r1.fs.filesUnder (central ++ [S.name]),
              (central ++ [S.name] ++ rel) ≠ mirror (central ++ [S.name]) S.path q' := by
            intro q' hq'
            obtain ⟨_, hq'u⟩ := (mem_filesUnder_iff _ _ _).mp hq'
            exact under_ne_of_indep _ _ _ _ hindBA hqu (mirror_strictUnder _ _ _ hq'u)
          unfold FS.contentAt
          rw [qF1 _ havp, qF1 _ havq, hlocstat _ hpu,
            findFile_none_of_not_isFile r1.fs _ (by simpa using hqf)]
          by_cases hpf : fs.isFile (S.path ++ rel) = true
          · exfalso
            have hpmem : (S.path ++ rel) ∈ fs.filesUnder S.path :=
              (mem_filesUnder_iff _ _ _).mpr ⟨(isFile_iff_mem_filePaths _ _).mp hpf, hpu⟩
            obtain ⟨f', g', hf', hg', _, _, _⟩ := pF2 _ hpmem
            rw [mirror_append] at hg'
            rw [FS.isFile, hg'] at hqf
            exact hqf rfl
          · rw [findFile_none_of_not_isFile fs _ (by simpa using hpf)]
      · intro q hqa hqb
        rw [qF1 q ?_]
        · apply pF1
          intro p hp
          constructor
          · intro he
            have := mirror_strictUnder S.path (central ++ [S.name]) p (hpsU p hp)
            rw [← he] at this
            rw [hqb] at this
            cases this
          · intro he
            have := strictUnder_conflictPath (central ++ [S.name])
              (mirror S.path (central ++ [S.name]) p) (resolveHost node) now
              (mirror_strictUnder S.path (central ++ [S.name]) p (hpsU p hp))
            rw [← he] at this
            rw [hqb] at this
            cases this
        · intro q' hq'
          obtain ⟨_, hq'u⟩ := (mem_filesUnder_iff _ _ _).mp hq'
          intro he
          have := mirror_strictUnder (central ++ [S.name]) S.path q' hq'u
          rw [← he] at this
          rw [hqa] at this
          cases this
      · intro d hd
        exact hdm2 d (hdm1 d hd)
      · intro R hRA hRB
        rw [qF5 R (fun x hx => hRA x hx)]
        exact pF5 R (fun x hx => hRB x hx)

/-- Two distinct child directories of the same parent are independent. -/
theorem indep_sibling (c : Path) (n m : String) (h : n ≠ m) :
    indepRoots (c ++ [n]) (c ++ [m]) := by
  constructor
  · intro hpre
    rw [List.isPrefixOf_iff_prefix] at hpre
    have hlen : (c ++ [n]).length = (c ++ [m]).length := by simp
    have he := List.IsPrefix.eq_of_length hpre hlen
    have he2 := List.append_cancel_left he
    simp only [List.cons.injEq, and_true] at he2
    exact h he2
  · intro hpre
    rw [List.isPrefixOf_iff_prefix] at hpre
    have hlen : (c ++ [m]).length = (c ++ [n]).length := by simp
    have he := List.IsPrefix.eq_of_length hpre hlen
    have he2 := List.append_cancel_left he
    simp only [List.cons.injEq, and_true] at he2
    exact h he2.symm

/-- A live run over a list of pairwise-independent sources leaves every
source tree in content agreement with its central subtree, preserves
readability and well-formedness, and touches nothing outside the synced
trees. -/
theorem runSources_sync (node : String) (now tol : Int) (central : Path)
    (srcs : List SaveSource) (g g' : FS) (cs : List Nat) (ops : List FsOp)
    (lg : List String)
    (htol : 0 ≤ tol)
    (hind : ∀ s ∈ srcs, indepRoots s.path central)
    (hpair : List.Pairwise (fun s t => s.name ≠ t.name ∧ indepRoots s.path t.path) srcs)
    (hwf : g.wfDirs) (hread : g.allReadable)
    (htag : ∀ s ∈ srcs, ∀ p ∈ g.filesUnder s.path,
      ¬ (conflictTag (resolveHost node) now).data <:+ (p.getLastD "").data)
    (hok : runSources node now tol central false srcs g = .ok (g', cs, ops, lg)) :
    (∀ s ∈ srcs, TreesEq g' s.path (central ++ [s.name])) ∧
    g'.allReadable ∧ g'.wfDirs ∧
    (∀ d ∈ g.dirs, d ∈ g'.dirs) ∧
    (∀ q, (∀ s ∈ srcs, strictUnder s.path q = false ∧
        strictUnder (central ++ [s.name]) q = false) →
      g'.findFile q = g.findFile q) ∧
    (∀ R, (∀ s ∈ srcs, (∀ x, strictUnder s.path x = true → strictUnder R x = false) ∧
        (∀ x, strictUnder (central ++ [s.name]) x = true → strictUnder R x = false)) →
      g'.filesUnder R = g.filesUnder R) := by
  induction srcs generalizing g cs ops lg with
  | nil =>
    simp only [runSources, Except.ok.injEq, Prod.mk.injEq] at hok
    obtain ⟨h1, _, _, _⟩ := hok
    subst h1
    exact ⟨fun s hs => absurd hs (List.not_mem_nil s), hread, hwf,
      fun d hd => hd, fun q _ => rfl, fun R _ => rfl⟩
  | cons s rest ih =>
    obtain ⟨hhead, hpair'⟩ := List.pairwise_cons.mp hpair
    simp only [runSources] at hok
    cases h1 : sync_source_to_central node now tol s central g false with
    | error e => simp only [h1] at hok; cases hok
    | ok r1 =>
      simp only [h1] at hok
      cases h2 : sync_central_to_source node now tol s central r1.fs false with
      | error e => simp only [h2] at hok; cases hok
      | ok r2 =>
        simp only [h2] at hok
        cases h3 : runSources node now tol central false rest r2.fs with
        | error e => simp only [h3] at hok; cases hok
        | ok t =>
          obtain ⟨gf, cs', ops', lg'⟩ := t
          simp only [h3, Except.ok.injEq, Prod.mk.injEq] at hok
          obtain ⟨hgf, _, _, _⟩ := hok
          subst hgf
          obtain ⟨hTE, hframe, hread2, hwf2, hdirs2, hfU⟩ :=
            source_roundtrip node now tol s central g r1 r2 htol
              (indep_extend s.path central s.name (hind s (List.mem_cons_self s rest)))
              hwf hread (htag s (List.mem_cons_self s rest)) h1 h2
          have htag' : ∀ u ∈ rest, ∀ p ∈ r2.fs.filesUnder u.path,
              ¬ (conflictTag (resolveHost node) now).data <:+ (p.getLastD "").data := by
            intro u hu
            have hfUu : r2.fs.filesUnder u.path = g.filesUnder u.path := by
              apply hfU
              · intro x hx
                exact indep_not_under s.path u.path x (hhead u hu).2 hx
              · intro x hx
                exact indep_not_under (central ++ [s.name]) u.path x
                  ⟨(indep_extend u.path central s.name (hind u (List.mem_cons_of_mem s hu))).2,
                   (indep_extend u.path central s.name (hind u (List.mem_cons_of_mem s hu))).1⟩ hx
            rw [hfUu]
            exact htag u (List.mem_cons_of_mem s hu)
          obtain ⟨ihTE, ihread, ihwf, ihdirs, ihframe, ihfU⟩ :=
            ih r2.fs cs' ops' lg' (fun u hu => hind u (List.mem_cons_of_mem s hu)) hpair'
              hwf2 hread2 htag' h3
          refine ⟨?_, ihread, ihwf, fun d hd => ihdirs d (hdirs2 d hd), ?_, ?_⟩
          · intro u hu
            rcases List.mem_cons.mp hu with heq | hu'
            · subst heq
              intro rel hrel
              have havoid1 : ∀ t ∈ rest, strictUnder t.path (u.path ++ rel) = false ∧
                  strictUnder (central ++ [t.name]) (u.path ++ rel) = false := by
                intro t ht
                constructor
                · exact indep_not_under u.path t.path _ (hhead t ht).2
                    (strictUnder_append _ rel hrel)
                · exact indep_not_under u.path (central ++ [t.name]) _
                    (indep_extend u.path central t.name (hind u (List.mem_cons_self u rest)))
                    (strictUnder_append _ rel hrel)
              have havoid2 : ∀ t ∈ rest,
                  strictUnder t.path (central ++ [u.name] ++ rel) = false ∧
                  strictUnder (central ++ [t.name]) (central ++ [u.name] ++ rel) = false := by
                intro t ht
                constructor
                · exact indep_not_under (central ++ [u.name]) t.path _
                    ⟨(indep_extend t.path central u.name (hind t (List.mem_cons_of_mem u ht))).2,
                     (indep_extend t.path central u.name (hind t (List.mem_cons_of_mem u ht))).1⟩
                    (strictUnder_append _ rel hrel)
                · exact indep_not_under (central ++ [u.name]) (central ++ [t.name]) _
                    (indep_sibling central u.name t.name (hhead t ht).1)
                    (strictUnder_append _ rel hrel)
              unfold FS.contentAt
              rw [ihframe _ havoid1, ihframe _ havoid2]
              exact hTE rel hrel
            · exact ihTE u hu'
          · intro q hq
            rw [ihframe q (fun t ht => hq t (List.mem_cons_of_mem s ht))]
            exact hframe q (hq s (List.mem_cons_self s rest)).1
              (hq s (List.mem_cons_self s rest)).2
          · intro R hR
            rw [ihfU R (fun t ht => hR t (List.mem_cons_of_mem s ht))]
            exact hfU R (hR s (List.mem_cons_self s rest)).1
              (hR s (List.mem_cons_self s rest)).2

/-- When a direction's two trees already agree in content, the direction
performs no mutation and reports zero copies. -/
theorem syncDirection_noop (node : String) (now tol : Int) (header : String)
    (src_root dest_root : Path) (g : FS)
    (hread : g.allReadable)
    (hTE : ∀ rel : Path, rel ≠ [] →
      g.contentAt (src_root ++ rel) = g.contentAt (dest_root ++ rel)) :
    ∃ lg, syncDirection node now tol header src_root dest_root g false =
      .ok { fs := g, copied := 0, ops := [], log := lg } := by
  unfold syncDirection
  by_cases hd : g.isDir src_root = true
  · rw [if_neg (by simp [hd])]
    have hps : ∀ p ∈ g.filesUnder src_root, ∃ f f2, g.findFile p = some f ∧
        g.findFile (mirror src_root dest_root p) = some f2 ∧
        f.readable = true ∧ f2.readable = true ∧ f.content = f2.content := by
      intro p hp
      obtain ⟨hpm, hpu⟩ := (mem_filesUnder_iff g src_root p).mp hp
      obtain ⟨f, hf⟩ := exists_findFile_of_mem_filePaths g p hpm
      have hrel : p.drop src_root.length ≠ [] := drop_ne_nil_of_strictUnder _ _ hpu
      have hTEp := hTE (p.drop src_root.length) hrel
      rw [← eq_append_drop_of_strictUnder _ _ hpu] at hTEp
      unfold FS.contentAt at hTEp
      rw [hf] at hTEp
      obtain ⟨f2, hf2, hc2⟩ := Option.map_eq_some'.mp hTEp.symm
      exact ⟨f, f2, hf, hf2, readable_of_findFile g p f hread hf,
        readable_of_findFile g _ f2 hread hf2, hc2.symm⟩
    rw [syncFiles_allskip node now tol src_root dest_root (g.filesUnder src_root) g hps]
    exact ⟨[header], rfl⟩
  · rw [if_pos (by simpa using hd)]
    exact ⟨[header, "  !! Skipping: source directory not found."], rfl⟩

/-- A second live run over trees that already agree copies nothing and
leaves the state untouched. -/
theorem runSources_allskip (node : String) (now tol : Int) (central : Path)
    (srcs : List SaveSource) (g : FS)
    (hread : g.allReadable)
    (hTE : ∀ s ∈ srcs, TreesEq g s.path (central ++ [s.name])) :
    ∃ cs lg, runSources node now tol central false srcs g = .ok (g, cs, [], lg) ∧
      ∀ c ∈ cs, c = 0 := by
  induction srcs with
  | nil => exact ⟨[], [], rfl, fun c hc => absurd hc (List.not_mem_nil c)⟩
  | cons s rest ih =>
    obtain ⟨lg1, hpush⟩ := syncDirection_noop node now tol
      ("=== Pushing " ++ s.name ++ " -> NAS ===") s.path (central ++ [s.name]) g hread
      (fun rel hrel => hTE s (List.mem_cons_self s rest) rel hrel)
    obtain ⟨lg2, hpull⟩ := syncDirection_noop node now tol
      ("=== Pulling NAS -> " ++ s.name ++ " ===") (central ++ [s.name]) s.path g hread
      (fun rel hrel => (hTE s (List.mem_cons_self s rest) rel hrel).symm)
    obtain ⟨cs', lg', ih1, ih2⟩ := ih (fun u hu => hTE u (List.mem_cons_of_mem s hu))
    refine ⟨0 :: 0 :: cs', lg1 ++ lg2 ++ lg', ?_, ?_⟩
    · simp only [runSources, sync_source_to_central, sync_central_to_source, hpush, hpull, ih1,
        List.nil_append]
    · intro c hc
      rcases List.mem_cons.mp hc with h | hc
      · exact h
      rcases List.mem_cons.mp hc with h | hc
      · exact h
      exact ih2 c hc

/-- C7 (amended): for a sane configuration (pairwise independent roots and
pairwise distinct source names), a well-formed, fully readable initial state
in which no existing file name already carries the conflict tag the first
run would embed in a backup, running `main` twice in succession with no
external change in between yields zero copies in every direction on the
second run. (Without the no-pre-existing-tag proviso the claim fails, see
the counterexample.) -/
theorem C7_second_run_copies_nothing (node : String) (now now2 : Int)
    (central : Path) (sources : List SaveSource) (fs : FS) (r1 : RunResult)
    (hconf : goodConfig central sources)
    (hwf : fs.wfDirs) (hread : fs.allReadable)
    (htag : noTagCollision fs (resolveHost node) now)
    (h1 : main node now central sources fs false = .ok r1) :
    ∃ r2, main node now2 central sources r1.fs false = .ok r2 ∧
      ∀ c ∈ r2.counts, c = 0 := by
  unfold main at h1
  by_cases hemp : sources.isEmpty = true
  · rw [if_pos hemp] at h1
    cases h1
    refine ⟨{ fs := (fs.mkdirParents central).mkdirParents central, exitCode := 1,
              counts := [], ops := [.mkdirParents central],
              log := ["No existing save sources found. Edit get_save_sources() paths."] },
            ?_, fun c hc => absurd hc (List.not_mem_nil c)⟩
    unfold main
    rw [if_pos hemp]
  · rw [if_neg hemp] at h1
    cases hrun : runSources node now SKEW_ALLOWANCE_SECONDS central false sources
        (fs.mkdirParents central) with
    | error e => simp only [hrun] at h1; cases h1
    | ok t =>
      obtain ⟨fs', cs, ops, lg⟩ := t
      simp only [hrun] at h1
      cases h1
      have htag1 : ∀ s ∈ sources, ∀ p ∈ (fs.mkdirParents central).filesUnder s.path,
          ¬ (conflictTag (resolveHost node) now).data <:+ (p.getLastD "").data := by
        intro s hs p hp
        rw [filesUnder_mkdirParents] at hp
        exact htag p ((mem_filesUnder_iff fs s.path p).mp hp).1
      obtain ⟨hTE, hread', hwf', _, _, _⟩ := runSources_sync node now
        SKEW_ALLOWANCE_SECONDS central sources (fs.mkdirParents central) fs' cs ops lg
        (by decide) hconf.1 hconf.2
        (wfDirs_mkdirParents fs central hwf)
        (allReadable_mkdirParents fs central hread) htag1 hrun
      obtain ⟨cs2, lg2, hrun2, hzero⟩ := runSources_allskip node now2
        SKEW_ALLOWANCE_SECONDS central sources (fs'.mkdirParents central)
        (allReadable_mkdirParents fs' central hread')
        (fun s hs rel hrel => by
          rw [contentAt_mkdirParents, contentAt_mkdirParents]
          exact hTE s hs rel hrel)
      refine ⟨{ fs := fs'.mkdirParents central, exitCode := 0, counts := cs2,
                ops := [.mkdirParents central], log := lg2 }, ?_, hzero⟩
      unfold main
      rw [if_neg hemp]
      simp only [hrun2]

/-- Witness for C7 at a concrete configuration: one source `s` at root `l`
holding one file, central root `c`; the first run pushes the file across and
the amended theorem yields a second run with all-zero counts. -/
theorem C7_witness :
    ∃ r2, main "h" 7 ["c"] [⟨"s", ["l"]⟩]
        (⟨[(["l", "a"], ⟨[1], 0, true⟩), (["c", "s", "a"], ⟨[1], 0, true⟩)],
          [[], ["l"], ["c"], ["c", "s"]]⟩ : FS) false = .ok r2 ∧
      ∀ c ∈ r2.counts, c = 0 :=
  C7_second_run_copies_nothing "h" 0 7 ["c"] [⟨"s", ["l"]⟩]
    ⟨[(["l", "a"], ⟨[1], 0, true⟩)], [[], ["l"]]⟩
    { fs := ⟨[(["l", "a"], ⟨[1], 0, true⟩), (["c", "s", "a"], ⟨[1], 0, true⟩)],
        [[], ["l"], ["c"], ["c", "s"]]⟩,
      exitCode := 0, counts := [1, 0],
      ops := [.mkdirParents ["c"], .mkdirParents ["c", "s"],
              .copyFile ["l", "a"] ["c", "s", "a"]],
      log := ["=== Pushing s -> NAS ===", "  -> c/s/a  (from l/a) [new file]",
              "=== Pulling NAS -> s ==="] }
    (by unfold goodConfig indepRoots; decide)
    (by unfold FS.wfDirs; decide)
    (by unfold FS.allReadable; decide)
    (by unfold noTagCollision; decide) (by rfl)

/-- Witness for C6: a concrete call (source missing, so the state is
returned unchanged) preserves an existing file. -/
theorem C6_witness :
    (⟨[(["b"], ⟨[7], 0, true⟩)], []⟩ : FS).isFile ["b"] = true :=
  (C6_no_deletion "h" 0 300 ⟨[(["b"], ⟨[7], 0, true⟩)], []⟩ ["x"] ["y"] false
      ["b"] (by decide)).1
    { fs := ⟨[(["b"], ⟨[7], 0, true⟩)], []⟩, copied := false, decision := .skip,
      ops := [], log := [] } (by rfl)

end SaveSync
